import Mathlib

/-
Verification development for the npconv backup converter.

The definitions below are a shallow embedding of the TypeScript sources:
  src/utils.ts                                (field codecs)
  src/converters/stt-uhabits/sttParser.ts     (record filtering and grouping)
  src/converters/stt-uhabits/uhabitsHelper.ts (day-start computation)
  src/converters/stt-uhabits/toUHabits.ts     (time-record to habit converter)
  src/converters/newpipe-libretube/toNewPipe.ts (flat to structured converter)
  src/converters/toLibreTube.ts and its newer variant (structured to flat converter)

Modelling conventions:
  - JavaScript numbers are modelled as an inductive JSNum with a rational
    payload for finite values plus NaN and the two infinities.  The functions
    verified here (clamping, date heuristics, merge maxima) use only exact
    comparisons, truncation and integer arithmetic, so the rational
    idealization coincides with IEEE double behaviour on double-representable
    inputs.
  - Timestamp-to-calendar conversions use the proleptic Gregorian civil
    calendar, the same rule used by the JavaScript Date type.  Local-midnight
    computations are parametrized by a constant UTC offset tz in milliseconds;
    daylight-saving shifts are not modelled (no claim depends on them).
  - SQL tables are lists of row structures in insertion order; statements
    using INSERT OR IGNORE / INSERT OR REPLACE are modelled by the
    corresponding list operations on the unique key of the table.
-/

deriving instance DecidableEq for Except

namespace Npconv

/-! ### JavaScript numeric primitives -/

/-- Number.MAX_SAFE_INTEGER from utils.ts. -/
def MAX_SAFE_NUM : Int := 9007199254740991

/-- A JavaScript number: finite rational value, NaN, or an infinity. -/
inductive JSNum where
  | fin (q : ℚ)
  | nan
  | posInf
  | negInf
deriving DecidableEq, Repr

/-- JavaScript truthiness of a number: 0 and NaN are falsy. -/
def jsTruthy : JSNum → Bool
  | .fin q => q ≠ 0
  | .nan => false
  | .posInf => true
  | .negInf => true

/-- Floor of a rational, computed structurally so that kernel evaluation works. -/
def ratFloor (q : ℚ) : Int := q.num.fdiv q.den

/-- Truncation toward zero, the behaviour of Math.trunc. -/
def ratTrunc (q : ℚ) : Int := if 0 ≤ q then ratFloor q else -(ratFloor (-q))

/-- Math.round: floor of the value plus one half. -/
def jsRound (q : ℚ) : Int := ratFloor (q + 1/2)

/-- Math.floor on a finite value. -/
def jsFloor (q : ℚ) : Int := ratFloor q

/-- clampToSafeInt from src/utils.ts lines 58-64: Number(value or 0) with
falsy inputs collapsed to 0, non-finite to 0, then clamping to the safe
integer interval with truncation toward zero. -/
def clampToSafeInt (value : JSNum) : Int :=
  let n : JSNum := if jsTruthy value then value else .fin 0
  match n with
  | .nan => 0
  | .posInf => 0
  | .negInf => 0
  | .fin q =>
      if q > (MAX_SAFE_NUM : ℚ) then MAX_SAFE_NUM
      else if q < (-MAX_SAFE_NUM : ℚ) then -MAX_SAFE_NUM
      else ratTrunc q

/-- clampToSafeInt applied to a possibly absent value: an absent (undefined)
argument is falsy, hence collapses to 0 exactly as in the source. -/
def clampToSafeIntOpt (value : Option JSNum) : Int :=
  clampToSafeInt (value.getD (.fin 0))

/-- Restatement of the specification sentence for the safe-integer clamp,
written from the words of the spec: truncated integer part of the numeric
value clamped to the closed interval between minus and plus MAX_SAFE_NUM,
with every non-finite numeric value sent to 0. -/
def clampToSafeIntSpec : JSNum → Int
  | .nan => 0
  | .posInf => 0
  | .negInf => 0
  | .fin q => max (-MAX_SAFE_NUM) (min MAX_SAFE_NUM (ratTrunc q))

/-! ### Civil calendar conversion (the Date to ISO-date rendering) -/

/-- Days-to-civil-date conversion for the proleptic Gregorian calendar
(the classic era-based algorithm); z counts days since 1970-01-01. -/
def civilFromDays (z : Int) : Int × Int × Int :=
  let z := z + 719468
  let era : Int := z.fdiv 146097
  let doe : Int := z - era * 146097
  let yoe : Int := (doe - doe.fdiv 1460 + doe.fdiv 36524 - doe.fdiv 146096).fdiv 365
  let y : Int := yoe + era * 400
  let doy : Int := doe - (365 * yoe + yoe.fdiv 4 - yoe.fdiv 100)
  let mp : Int := (5 * doy + 2).fdiv 153
  let d : Int := doy - (153 * mp + 2).fdiv 5 + 1
  let m : Int := mp + (if mp < 10 then 3 else -9)
  (y + (if m ≤ 2 then 1 else 0), m, d)

/-- Left-pad a natural number with zeros to the given width. -/
def padNat (width : Nat) (n : Nat) : String :=
  let s := toString n
  let pad := width - s.length
  String.mk (List.replicate pad '0') ++ s

/-- Render the year of an ISO date the way Date.prototype.toISOString does:
four digits for years 0 to 9999, otherwise an expanded six-digit year with an
explicit sign. -/
def renderIsoYear (y : Int) : String :=
  if 0 ≤ y ∧ y ≤ 9999 then padNat 4 y.toNat
  else if y > 9999 then "+" ++ padNat 6 y.toNat
  else "-" ++ padNat 6 (-y).toNat

/-- The date part of toISOString for a time value in epoch milliseconds
(valid time values only; validity is checked by the caller). -/
def isoDatePartOfMs (ms : Int) : String :=
  let day := ms.fdiv 86400000
  let c := civilFromDays day
  renderIsoYear c.1 ++ "-" ++ padNat 2 c.2.1.toNat ++ "-" ++ padNat 2 c.2.2.toNat

/-- The largest admissible absolute time value of a JavaScript Date,
8.64e15 milliseconds. -/
def MAX_TIME_VALUE : ℚ := 8640000000000000

/-- TimeClip followed by toISOString date extraction: building a Date from
the (possibly fractional) millisecond value q and rendering its ISO date
part.  A magnitude beyond the Date range gives an invalid date, on which
toISOString throws a RangeError, modelled as the error case. -/
def dateToIsoDatePart (q : ℚ) : Except Unit String :=
  if |q| > MAX_TIME_VALUE then .error ()
  else .ok (isoDatePartOfMs (ratTrunc q))

/-! ### formatUploadDate (src/utils.ts lines 66-88) -/

/-- The raw argument of formatUploadDate, classified by the attributes the
source branches on.  Strings are represented by the results of the two
operations the source applies to them: the ISO-like prefix test (with the
captured date part) and Number conversion.  A finite number input n is
equivalent to numString applied to its decimal rendering, since
Number(String(n)) is the identity and a rendered number never matches the
ISO-like pattern. -/
inductive UploadRaw where
  /-- null, undefined, the empty string, NaN or any other falsy non-zero value -/
  | undef
  /-- a trimmed string matching four digits, dash, two digits, dash, two
  digits at the start; the payload is the portion before the first T -/
  | isoStr (datePart : String)
  /-- a non-ISO-like string whose Number conversion is NaN -/
  | badStr
  /-- a value whose Number conversion is an infinity -/
  | infStr
  /-- a finite numeric value (a number input, or a numeric string) -/
  | num (q : ℚ)
deriving DecidableEq, Repr

/-- The numeric branch of formatUploadDate: magnitude heuristic choosing
between compact YYYYMMDD rendering, millisecond interpretation, second
interpretation and the millisecond fallback. -/
def formatUploadDateNum (q : ℚ) : Except Unit String :=
  let a := |q|
  if 10000000 ≤ a ∧ a ≤ 99999999 then
    let str := toString (ratTrunc q)
    .ok (str.take 4 ++ "-" ++ (str.drop 4).take 2 ++ "-" ++ (str.drop 6).take 2)
  else if a > 1000000000000 then dateToIsoDatePart q
  else if a ≥ 1000000000 then dateToIsoDatePart (q * 1000)
  else dateToIsoDatePart q

/-- formatUploadDate from src/utils.ts lines 66-88. -/
def formatUploadDate : UploadRaw → Except Unit String
  | .undef => .ok "1970-01-01"
  | .isoStr datePart => .ok datePart
  | .badStr => .ok "1970-01-01"
  | .infStr => .ok "1970-01-01"
  | .num q => formatUploadDateNum q

/-- parseAccessDateToMs from src/utils.ts lines 90-104, restricted to the
numeric and absent cases exercised by the converters (the argument is the
first truthy value of the JS alias chain, so an absent or zero value is
modelled as none; string dates are outside the modelled scope). -/
def parseAccessDateToMs (raw : Option ℚ) : Int :=
  match raw with
  | none => 0
  | some q => if q > 1000000000000 then jsFloor q else jsFloor (q * 1000)

/-! ### String scanning (the regular expressions of utils.ts and converters) -/

/-- Substring test, the behaviour of String.prototype.includes. -/
def strIncludes (hay pat : String) : Bool :=
  hay.toList.tails.any (fun t => pat.toList.isPrefixOf t)

/-- Leftmost match of a literal token followed by a nonempty capture of
characters satisfying keep (greedy), the behaviour of String.prototype.match
with a pattern of the shape token([class]+).  On an empty capture the scan
resumes one position further, as a backtracking regex engine does. -/
def scanTokCap (tok : List Char) (keep : Char → Bool) : List Char → Option (List Char)
  | [] => none
  | c :: rest =>
      if tok.isPrefixOf (c :: rest) then
        let cap := ((c :: rest).drop tok.length).takeWhile keep
        if cap.isEmpty then scanTokCap tok keep rest else some cap
      else scanTokCap tok keep rest

/-- Leftmost match of one class character, then a literal token, then a
nonempty greedy capture — patterns of the shape [pre]token([class]+). -/
def scanClassTokCap (pre : List Char) (tok : List Char) (keep : Char → Bool) :
    List Char → Option (List Char)
  | [] => none
  | c :: rest =>
      if pre.contains c ∧ tok.isPrefixOf rest then
        let cap := (rest.drop tok.length).takeWhile keep
        if cap.isEmpty then scanClassTokCap pre tok keep rest else some cap
      else scanClassTokCap pre tok keep rest

/-- Character class of the patterns capturing channel and user identifiers,
word characters or dash. -/
def isWordDash (c : Char) : Bool := c.isAlphanum ∨ c = '_' ∨ c = '-'

/-- Character class excluding query and path delimiters. -/
def notDelim (c : Char) : Bool := c ≠ '?' ∧ c ≠ '&' ∧ c ≠ '/'

/-- extractVideoIdFromUrl from src/utils.ts lines 42-53: the four recognized
URL shapes are tried in order, a falsy (empty) input or failure of all four
gives the empty string. -/
def extractVideoIdFromUrl (url : String) : String :=
  if url = "" then ""
  else
    match scanClassTokCap ['?', '&'] ['v', '='] (· ≠ '&') url.toList with
    | some cap => String.mk cap
    | none =>
    match scanTokCap "youtu.be/".toList notDelim url.toList with
    | some cap => String.mk cap
    | none =>
    match scanTokCap "/shorts/".toList notDelim url.toList with
    | some cap => String.mk cap
    | none =>
    match scanTokCap "/embed/".toList notDelim url.toList with
    | some cap => String.mk cap
    | none => ""

/-- Channel-or-user identifier extraction applied to subscription URLs:
first a channel-path capture, then a user-path capture, else empty. -/
def extractChannelId (url : String) : String :=
  match scanTokCap "channel/".toList isWordDash url.toList with
  | some cap => String.mk cap
  | none =>
  match scanTokCap "user/".toList isWordDash url.toList with
  | some cap => String.mk cap
  | none => ""

/-- The playlist-id capture [?&]list=([^&]+) used for remote playlists. -/
def extractListParam (url : String) : String :=
  match scanClassTokCap ['?', '&'] "list=".toList (· ≠ '&') url.toList with
  | some cap => String.mk cap
  | none => ""

/-- String conversion of a nullable SQL text value: String(null) is the
string null. -/
def jsStringOfOpt (o : Option String) : String := o.getD "null"

/-! ### Simple Time Tracker data model (src/types and sttParser.ts) -/

/-- A parsed STT time record (src/converters/stt-uhabits/sttParser.ts). -/
structure SttRecord where
  id : Int
  type_id : Int
  start_timestamp : Int
  end_timestamp : Int
  comment : Option String
deriving DecidableEq, Repr

/-- An STT activity type (only its identity and display data). -/
structure SttRecordType where
  id : Int
  name : String
  emoji : String
  color : Int
  category_id : Int
deriving DecidableEq, Repr

/-- The parsed STT backup as consumed by the converter: the activity-type
map in insertion order and the record list in file order. -/
structure ParsedStt where
  recordTypes : List (Int × SttRecordType)
  records : List SttRecord
deriving Repr

/-- A uHabits habit as looked up by the converter; the remaining metadata
columns are never consulted, only presence in the boolean-habit map and the
name (used in log output) matter. -/
structure UHabitsHabit where
  name : String
  archived : Int
deriving DecidableEq, Repr

/-- A row of the Repetitions table (habit id, midnight timestamp, value,
optional notes).  The dedup key built by the converter is the template
string habit-colon-timestamp; since neither component renders with a colon
the string key encodes exactly this pair, so the pair is used directly. -/
structure UHabitsRepetition where
  habit_id : Int
  timestamp : Int
  value : Int
  notes : Option String
deriving DecidableEq, Repr

/-- The parsed uHabits backup as consumed by the converter: the boolean
habit map and every row of the Repetitions table. -/
structure ParsedUHabits where
  booleanHabits : List (Int × UHabitsHabit)
  repetitions : List UHabitsRepetition
deriving Repr

/-- A UI mapping row (src/types/uhabits.ts lines 37-42).  minDuration is
optional; copySttComments is carried in the type but never read by the
converter. -/
structure ConversionMapping where
  sttTypeId : Int
  uhabitsHabitId : Int
  minDuration : Option Int
  copySttComments : Bool
deriving DecidableEq, Repr

/-- filterRecordsByDuration from sttParser.ts lines 115-123. -/
def filterRecordsByDuration (records : List SttRecord) (minMinutes : Int) : List SttRecord :=
  if minMinutes ≤ 0 then records
  else records.filter (fun r => r.end_timestamp - r.start_timestamp ≥ minMinutes * 60 * 1000)

/-- getRecordsForType from sttParser.ts lines 147-149. -/
def getRecordsForType (records : List SttRecord) (typeId : Int) : List SttRecord :=
  records.filter (fun r => r.type_id = typeId)

/-- The UTC day index of an epoch-millisecond timestamp.  groupRecordsByDay
keys its groups by the toISOString date part, which determines and is
determined by this floor-division day count, so the integer day index is
used as the group key. -/
def utcDayKey (t : Int) : Int := t.fdiv 86400000

/-- Append a record to the group of its day, preserving first-occurrence
order of groups, the JS Map insertion-order behaviour. -/
def addToDayGroup : List (Int × List SttRecord) → Int → SttRecord → List (Int × List SttRecord)
  | [], k, r => [(k, [r])]
  | g :: gs, k, r =>
      if g.1 = k then (g.1, g.2 ++ [r]) :: gs
      else g :: addToDayGroup gs k r

/-- groupRecordsByDay from sttParser.ts lines 128-142. -/
def groupRecordsByDay (records : List SttRecord) : List (Int × List SttRecord) :=
  records.foldl (fun gs r => addToDayGroup gs (utcDayKey r.start_timestamp) r) []

/-- timestampToDayStart from uhabitsHelper.ts lines 144-148: local midnight
of the timestamp under a constant UTC offset tz in milliseconds (daylight
saving is not modelled). -/
def timestampToDayStart (tz : Int) (t : Int) : Int :=
  t - (t + tz).emod 86400000

/-! ### convertSttToUHabits (src/converters/stt-uhabits/toUHabits.ts) -/

/-- Mutable state of one conversion run: the dedup set of habit-and-day
keys, the inserted rows in insertion order, and the two counters. -/
structure ConvState where
  existingReps : List (Int × Int)
  newRows : List UHabitsRepetition
  totalNew : Nat
  skipped : Nat
deriving DecidableEq, Repr

/-- The notes text synthesized for a new repetition row
(toUHabits.ts lines 100-102). -/
def repetitionNotes (fill : Bool) (dayRecords : List SttRecord) : Option String :=
  if fill then
    let n := dayRecords.length
    let totalMs := dayRecords.foldl (fun s r => s + (r.end_timestamp - r.start_timestamp)) (0 : Int)
    let totalMin := jsRound ((totalMs : ℚ) / 60000)
    some ("Converted from STT: " ++ toString n ++ " session"
      ++ (if n > 1 then "s" else "") ++ ", " ++ toString totalMin ++ "min total")
  else none

/-- Processing of one day group (toUHabits.ts lines 82-112): skip when the
habit-and-day key already exists, otherwise insert a checked repetition row
(value 2) at local midnight and record the key. -/
def processDay (tz : Int) (fill : Bool) (habitId : Int)
    (st : ConvState) (day : Int × List SttRecord) : ConvState :=
  match day.2 with
  | [] => st
  | r0 :: _ =>
      let dayTs := timestampToDayStart tz r0.start_timestamp
      if (habitId, dayTs) ∈ st.existingReps then
        { st with skipped := st.skipped + 1 }
      else
        let row : UHabitsRepetition :=
          { habit_id := habitId, timestamp := dayTs, value := 2
            notes := repetitionNotes fill day.2 }
        { existingReps := (habitId, dayTs) :: st.existingReps
          newRows := st.newRows ++ [row]
          totalNew := st.totalNew + 1
          skipped := st.skipped }

/-- The day groups a mapping gives rise to: empty when either lookup fails
or no record of the type survives the duration filter
(toUHabits.ts lines 43-77). -/
def mappingDays (stt : ParsedStt) (habits : List (Int × UHabitsHabit))
    (m : ConversionMapping) : List (Int × List SttRecord) :=
  match stt.recordTypes.lookup m.sttTypeId, habits.lookup m.uhabitsHabitId with
  | some _, some _ =>
      let minDuration := m.minDuration.getD 0
      let filtered := filterRecordsByDuration stt.records minDuration
      let typeRecords := getRecordsForType filtered m.sttTypeId
      if typeRecords = [] then [] else groupRecordsByDay typeRecords
  | _, _ => []

/-- Processing of one mapping (toUHabits.ts lines 43-118). -/
def processMapping (tz : Int) (fill : Bool) (stt : ParsedStt)
    (habits : List (Int × UHabitsHabit)) (st : ConvState)
    (m : ConversionMapping) : ConvState :=
  (mappingDays stt habits m).foldl (processDay tz fill m.uhabitsHabitId) st

/-- The observable result of a conversion run: the full Repetitions table of
the exported database, the inserted rows, and the counters. -/
structure ConvResult where
  outRepetitions : List UHabitsRepetition
  newRows : List UHabitsRepetition
  totalNew : Nat
  skipped : Nat
deriving DecidableEq, Repr

/-- convertSttToUHabits from toUHabits.ts lines 10-129: build the dedup set
from every existing repetition row, fold the mappings, and export the
database whose Repetitions table is the input table followed by the
inserted rows in insertion order. -/
def convertSttToUHabits (tz : Int) (stt : ParsedStt) (uh : ParsedUHabits)
    (mappings : List ConversionMapping) (fill : Bool := true) : ConvResult :=
  let init : ConvState :=
    { existingReps := uh.repetitions.map (fun r => (r.habit_id, r.timestamp))
      newRows := [], totalNew := 0, skipped := 0 }
  let final := mappings.foldl (processMapping tz fill stt uh.booleanHabits) init
  { outRepetitions := uh.repetitions ++ final.newRows
    newRows := final.newRows
    totalNew := final.totalNew
    skipped := final.skipped }

/-! ### Helper definitions for the converter proofs -/

/-- The habit-and-timestamp keys of a list of repetition rows. -/
def keysOf (rows : List UHabitsRepetition) : List (Int × Int) :=
  rows.map (fun r => (r.habit_id, r.timestamp))

/-- Number of nonempty day groups in a day-group list (each produces one
skip or one insertion). -/
def nonEmptyDayCount (days : List (Int × List SttRecord)) : Nat :=
  (days.filter (fun d => ¬ d.2.isEmpty)).length

/-! ### NewPipe database model (toNewPipe.ts write path) -/

/-- A row of the streams table (service 0 is the supported platform);
uniqueness key is the pair of service_id and url. -/
structure StreamRow where
  uid : Int
  service_id : Int
  url : String
  title : String
  stream_type : String
  duration : ℚ
  uploader : String
  upload_date : Option Int
  thumbnail_url : Option String
deriving DecidableEq, Repr

/-- A row of stream_history; primary key is the pair of stream_id and
access_date (sqlHelper.ts line 33). -/
structure StreamHistoryRow where
  stream_id : Int
  access_date : Int
  repeat_count : ℚ
deriving DecidableEq, Repr

/-- A row of stream_state; primary key is stream_id (sqlHelper.ts line 34). -/
structure StreamStateRow where
  progress_time : Int
  stream_id : Int
deriving DecidableEq, Repr

/-- The NewPipe database restricted to the tables the watch-history phase
writes; rows are kept in insertion order, nextStreamUid models the
autoincrement counter. -/
structure NPDb where
  streams : List StreamRow
  stream_history : List StreamHistoryRow
  stream_state : List StreamStateRow
  nextStreamUid : Int
deriving DecidableEq, Repr

/-- A LibreTube watch-history entry as consumed by the history phase of
toNewPipe.ts (lines 311-353).  Alias chains of the source are collapsed to
one field each, since the source only uses the first truthy value: videoId
stands for videoId, videoIdStr and id; title for title and name; uploader
for uploader and uploaderName; duration for duration and length;
thumbnailUrl for thumbnailUrl and thumbnail; progressRaw for currentTime,
position and progress; accessRaw for accessDate, accessedAt, lastWatched,
timestamp, date and time; repeatRaw for repeatCount, watchCount, playCount
and repeat_count.  The uploadDate field carries the already-derived upload
timestamp (its string parsing is not claim-relevant).  Only finite numeric
access dates are modelled. -/
structure LTHistEntry where
  videoId : Option String
  url : Option String
  title : Option String
  uploader : Option String
  duration : Option ℚ
  uploadDate : Option Int
  thumbnailUrl : Option String
  progressRaw : Option ℚ
  accessRaw : Option ℚ
  repeatRaw : Option ℚ
deriving DecidableEq, Repr

/-- JS string disjunction with a default: an absent or empty value falls
through to the default. -/
def jsOrSOpt (o : Option String) (d : String) : String :=
  match o with
  | some s => if s = "" then d else s
  | none => d

/-- The resolved video id of a history entry: the videoId chain, then URL
extraction, then the empty string (toNewPipe.ts line 313). -/
def resolveVidIdNP (e : LTHistEntry) : String :=
  let fromUrl := match e.url with
    | some u => extractVideoIdFromUrl u
    | none => ""
  match e.videoId with
  | some s => if s = "" then fromUrl else s
  | none => fromUrl

/-- The canonical watch URL used for stream deduplication. -/
def canonicalWatchUrl (vidId : String) : String :=
  "https://www.youtube.com/watch?v=" ++ vidId

/-- Access-date resolution (toNewPipe.ts lines 342-351): a falsy chain
value gives the current time; a numeric value above 10 to the 12 is taken
as milliseconds, otherwise converted from seconds. -/
def resolveAccessDateMs (now : Int) (e : LTHistEntry) : Int :=
  match e.accessRaw with
  | none => now
  | some q =>
      if q = 0 then now
      else if q > 1000000000000 then jsFloor q else jsFloor (q * 1000)

/-- Repeat-count resolution (toNewPipe.ts line 353): first truthy of the
alias chain, defaulting to 1. -/
def resolveRepeatCount (e : LTHistEntry) : ℚ :=
  match e.repeatRaw with
  | none => 1
  | some q => if q = 0 then 1 else q

/-- Progress-time resolution (toNewPipe.ts lines 327-339): prefer the
watch-position map (milliseconds, with the sentinel value mapped to 0),
else convert the entry progress from seconds.  The sentinel comparison is
modelled on the numeric value. -/
def resolveProgressTime (posMap : List (String × JSNum)) (vidId : String)
    (e : LTHistEntry) : Int :=
  match posMap.lookup vidId with
  | some v =>
      if v = .fin 9223372036854775807 then 0
      else match (if jsTruthy v then v else .fin 0) with
        | .fin q => jsFloor q
        | _ => 0
  | none => jsFloor ((e.progressRaw.getD 0) * 1000)

/-- Stream lookup by canonical URL on the supported service
(the SELECT uid query of toNewPipe.ts line 367). -/
def lookupStreamUid (db : NPDb) (url : String) : Option Int :=
  (db.streams.find? (fun s => s.service_id == 0 && s.url == url)).map (fun s => s.uid)

/-- INSERT OR IGNORE INTO streams: ignored when a row with the same
service and url exists, else appended with the next uid. -/
def insertOrIgnoreStream (db : NPDb) (url title stream_type : String) (duration : ℚ)
    (uploader : String) (upload_date : Option Int) (thumbnail_url : Option String) : NPDb :=
  if db.streams.any (fun s => s.service_id == 0 && s.url == url) then db
  else
    let row : StreamRow :=
      { uid := db.nextStreamUid, service_id := 0, url := url, title := title,
        stream_type := stream_type, duration := duration, uploader := uploader,
        upload_date := upload_date, thumbnail_url := thumbnail_url }
    { db with streams := db.streams ++ [row], nextStreamUid := db.nextStreamUid + 1 }

/-- INSERT OR REPLACE INTO stream_state (primary key stream_id). -/
def insertOrReplaceStateRow (db : NPDb) (progress : Int) (sid : Int) : NPDb :=
  { db with stream_state :=
      db.stream_state.filter (fun r => r.stream_id != sid) ++ [⟨progress, sid⟩] }

/-- INSERT OR REPLACE INTO stream_history (primary key stream_id and
access_date). -/
def insertOrReplaceHistoryRow (db : NPDb) (sid : Int) (date : Int) (rc : ℚ) : NPDb :=
  { db with stream_history :=
      db.stream_history.filter (fun r => !(r.stream_id == sid && r.access_date == date))
        ++ [⟨sid, date, rc⟩] }

/-- The window predicate of the dedup query: same stream and access date
within the inclusive window of plus or minus 1000 milliseconds. -/
def historyWindowPred (sid : Int) (accessDateMs : Int) (r : StreamHistoryRow) : Bool :=
  r.stream_id == sid && decide (accessDateMs - 1000 ≤ r.access_date)
    && decide (r.access_date ≤ accessDateMs + 1000)

/-- The stream_history write of one entry (toNewPipe.ts lines 378-401):
in merge mode the first row of the same stream within the one-second window
absorbs the repeat count, otherwise (or when no row matches) the row is
inserted. -/
def writeHistoryRow (mode : String) (db : NPDb) (sid : Int) (accessDateMs : Int)
    (rc : ℚ) : NPDb :=
  if mode = "merge" then
    match db.stream_history.find? (historyWindowPred sid accessDateMs) with
    | some ex =>
        let combined := ex.repeat_count + rc
        { db with stream_history := db.stream_history.map (fun r =>
            if r.stream_id == sid && r.access_date == ex.access_date then
              { r with repeat_count := combined }
            else r) }
    | none => insertOrReplaceHistoryRow db sid accessDateMs rc
  else insertOrReplaceHistoryRow db sid accessDateMs rc

/-- Processing of one history entry (toNewPipe.ts lines 311-404): resolve
the video id, insert or reuse the stream row, replace the stream state,
then write the history row with merge-mode deduplication. -/
def processHistoryItem (mode : String) (now : Int) (posMap : List (String × JSNum))
    (db : NPDb) (e : LTHistEntry) : NPDb :=
  let vidId := resolveVidIdNP e
  if vidId = "" then db
  else
    let vidUrl := canonicalWatchUrl vidId
    let db1 := insertOrIgnoreStream db vidUrl (jsOrSOpt e.title "Unknown") "VIDEO_STREAM"
      (e.duration.getD 0) (jsOrSOpt e.uploader "Unknown") e.uploadDate e.thumbnailUrl
    match lookupStreamUid db1 vidUrl with
    | none => db1
    | some sid =>
        let db2 := insertOrReplaceStateRow db1 (resolveProgressTime posMap vidId e) sid
        writeHistoryRow mode db2 sid (resolveAccessDateMs now e) (resolveRepeatCount e)

/-- The watch-history phase loop of convertToNewPipe. -/
def processHistory (mode : String) (now : Int) (posMap : List (String × JSNum))
    (db : NPDb) (items : List LTHistEntry) : NPDb :=
  items.foldl (processHistoryItem mode now posMap) db

/-- The phase-level control flow of convertToNewPipe (toNewPipe.ts lines
69-435), with the phase bodies abstracted: the subscriptions block
(lines 72-111), playlists block (lines 114-225) and remote-playlists block
(lines 228-284) rethrow in their catch clauses, while the watch-history
block (lines 287-418) and the room-master block (lines 421-426) catch
without rethrowing, so the run proceeds to COMMIT with the state reached
before the failed block. -/
def convertToNewPipePhases {α : Type} (subsPhase playlistsPhase remotesPhase histPhase
    roomPhase : α → Except String α) (d0 : α) : Except String α :=
  match subsPhase d0 with
  | .error e => .error e
  | .ok d1 =>
  match playlistsPhase d1 with
  | .error e => .error e
  | .ok d2 =>
  match remotesPhase d2 with
  | .error e => .error e
  | .ok d3 =>
  let d4 := match histPhase d3 with
    | .ok d => d
    | .error _ => d3
  let d5 := match roomPhase d4 with
    | .ok d => d
    | .error _ => d4
  .ok d5

/-! ### LibreTube document model (toLibreTube converter) -/

/-- A flat-document subscription entry. -/
structure LTSubscription where
  channelId : String
  url : String
  name : String
  avatar : Option String
  verified : Bool
deriving DecidableEq, Repr

/-- A flat-document remote-playlist bookmark. -/
structure LTBookmark where
  playlistId : String
  playlistName : String
  thumbnailUrl : Option String
  uploader : Option String
  uploaderUrl : String
  videos : Int
deriving DecidableEq, Repr

/-- A flat-document local-playlist video entry. -/
structure LTVideo where
  id : Int
  playlistId : Int
  videoId : String
  title : String
  uploadDate : String
  uploader : String
  thumbnailUrl : Option String
  duration : Int
deriving DecidableEq, Repr

/-- The playlist header of a local playlist. -/
structure LTPlaylistInfo where
  id : Int
  name : String
  thumbnailUrl : Option String
deriving DecidableEq, Repr

/-- A flat-document local playlist. -/
structure LTLocalPlaylist where
  playlist : LTPlaylistInfo
  videos : List LTVideo
deriving DecidableEq, Repr

/-- A flat-document watch-history item; accessDate carries the raw numeric
value (the alias chain collapsed), normalized to epoch milliseconds during
the merge. -/
structure LTHistItem where
  videoId : String
  title : String
  uploadDate : String
  uploader : String
  uploaderUrl : String
  uploaderAvatar : String
  thumbnailUrl : Option String
  duration : Int
  accessDate : Option ℚ
deriving DecidableEq, Repr

/-- A flat-document watch-position entry. -/
structure WatchPos where
  videoId : String
  position : Option JSNum
deriving DecidableEq, Repr

/-- The flat LibreTube document restricted to the fields the converter
reads or writes; extraPlaylistKeys models the other top-level keys whose
name matches the playlist pattern (preserved and restored as a block). -/
structure LTDoc where
  watchHistory : List LTHistItem
  subscriptions : List LTSubscription
  playlistBookmarks : List LTBookmark
  localPlaylists : List LTLocalPlaylist
  watchPositions : List WatchPos
  extraPlaylistKeys : List (String × String)
deriving DecidableEq, Repr

/-- A subscriptions-query row of the NewPipe database. -/
structure NPSubRow where
  url : Option String
  name : Option String
  avatar_url : Option String
deriving Repr

/-- A remote-playlists-query row. -/
structure NPRemRow where
  name : Option String
  url : Option String
  uploader : Option String
  thumbnail_url : Option String
  stream_count : Option JSNum
deriving Repr

/-- A playlists-query row. -/
structure NPPlaylistRow where
  uid : Int
  name : Option String
deriving Repr

/-- A playlist-videos-join row (ordered by join_index). -/
structure NPVideoRow where
  url : Option String
  title : Option String
  duration : Option JSNum
  uploader : Option String
  upload_date : UploadRaw
  thumbnail_url : Option String
deriving Repr

/-- A stream-state-join row. -/
structure NPStateRow where
  url : Option String
  progress_time : Option JSNum
deriving Repr

/-- A stream-history-join row. -/
structure NPHistRow where
  url : Option String
  title : Option String
  duration : Option JSNum
  uploader : Option String
  uploader_url : Option String
  thumbnail_url : Option String
  upload_date : UploadRaw
  access_date : Option ℚ
  repeat_count : Option JSNum
deriving Repr

/-- The result sets of the SQL queries convertToLibreTube issues against
the NewPipe database, in row order; videosOf is the per-playlist ordered
join query. -/
structure NPQueryResults where
  subs : List NPSubRow
  remotePlaylists : List NPRemRow
  playlists : List NPPlaylistRow
  videosOf : Int → List NPVideoRow
  stateRows : List NPStateRow
  histRows : List NPHistRow

/-- A nullable text column passed through the conditional String
conversion: a falsy value becomes undefined. -/
def optTruthyStr (o : Option String) : Option String :=
  match o with
  | some s => if s = "" then none else some s
  | none => none

/-- Safe-integer clamping of an integer value. -/
def clampInt (i : Int) : Int := clampToSafeInt (.fin (i : ℚ))

/-- JS-Map set on an association list: overwrite in place, else append. -/
def setAssoc {β : Type} (mp : List (String × β)) (k : String) (v : β) : List (String × β) :=
  if mp.any (fun p => p.1 == k) then mp.map (fun p => if p.1 == k then (p.1, v) else p)
  else mp ++ [(k, v)]

/-- JS-Map get on an association list (keys are unique in every map the
converter builds). -/
def getAssoc {β : Type} : List (String × β) → String → Option β
  | [], _ => none
  | p :: rest, k => if p.1 = k then some p.2 else getAssoc rest k

/-- Stable insertion before the first strictly-smaller position (lt is the
strict comes-before relation). -/
def stableInsert {α : Type} (lt : α → α → Bool) (x : α) : List α → List α
  | [] => [x]
  | y :: ys => if lt x y then x :: y :: ys else y :: stableInsert lt x ys

/-- Stable sort by insertion, extensionally equal to the stable
Array.prototype.sort of JS for a consistent comparator. -/
def stableSort {α : Type} (lt : α → α → Bool) (l : List α) : List α :=
  l.foldl (fun acc x => stableInsert lt x acc) []

/-- The subscriptions extraction (newer converter, lines 445-470): platform
filter, channel-id derivation, 1-to-1 translation. -/
def subsExtract (rows : List NPSubRow) : List LTSubscription :=
  rows.filterMap (fun row =>
    let url := jsStringOfOpt row.url
    if url = "" ∨ ¬ (strIncludes url "youtube.com" ∨ strIncludes url "youtu.be") then none
    else some { channelId := extractChannelId url, url := url,
                name := jsStringOfOpt row.name, avatar := optTruthyStr row.avatar_url,
                verified := false })

/-- The remote-playlists extraction (newer converter, lines 472-495). -/
def remExtract (rows : List NPRemRow) : List LTBookmark :=
  rows.filterMap (fun row =>
    let url := jsStringOfOpt row.url
    if url = "" ∨ ¬ (strIncludes url "youtube.com" ∨ strIncludes url "youtu.be") then none
    else some { playlistId := extractListParam url, playlistName := jsStringOfOpt row.name,
                thumbnailUrl := optTruthyStr row.thumbnail_url,
                uploader := optTruthyStr row.uploader,
                uploaderUrl := "", videos := clampToSafeIntOpt row.stream_count })

/-- Translation of the member videos of one playlist (newer converter,
lines 513-533): videos with an unparseable URL are skipped, the running
index becomes the numeric id, the upload date goes through
formatUploadDate, which may throw. -/
def buildPlaylistVideos (plId : Int) (rows : List NPVideoRow) : Except Unit (List LTVideo) :=
  rows.foldlM (fun acc v => do
    let vUrl := jsStringOfOpt v.url
    let vidId := extractVideoIdFromUrl vUrl
    if vidId = "" then pure acc
    else do
      let uploadDate ← formatUploadDate v.upload_date
      let entry : LTVideo :=
        { id := acc.length, playlistId := clampInt plId, videoId := vidId,
          title := jsStringOfOpt v.title, uploadDate := uploadDate,
          uploader := jsStringOfOpt v.uploader, thumbnailUrl := optTruthyStr v.thumbnail_url,
          duration := clampToSafeIntOpt v.duration }
      pure (acc ++ [entry])) []

/-- The local-playlist object pushed for one playlist row. -/
def mkLocalPlaylist (plId : Int) (plName : String) (videos : List LTVideo) : LTLocalPlaylist :=
  let thumb : Option String := match videos.head? with
    | some v => v.thumbnailUrl
    | none => some ""
  { playlist := { id := clampInt plId, name := plName, thumbnailUrl := thumb }
    videos := videos }

/-- The local-playlists extraction loop with per-name conflict resolution
(newer converter, lines 497-559): an existing same-named playlist is
replaced under source precedence and kept (the incoming one skipped)
otherwise. -/
def addOnePlaylist (npq : NPQueryResults) (pb : Option String) (d : LTDoc)
    (plRow : NPPlaylistRow) : Except Unit LTDoc :=
  let plId := plRow.uid
  let plName := jsStringOfOpt plRow.name
  match buildPlaylistVideos plId (npq.videosOf plId) with
  | .error e => .error e
  | .ok videos =>
    if videos ≠ [] ∨ plName ≠ "" then
      match d.localPlaylists.findIdx? (fun p => p.playlist.name == plName) with
      | some idx =>
          if pb = some "merge_np_precedence" then
            .ok { d with localPlaylists :=
              (d.localPlaylists.eraseIdx idx) ++ [mkLocalPlaylist plId plName videos] }
          else .ok d
      | none =>
          .ok { d with localPlaylists :=
            d.localPlaylists ++ [mkLocalPlaylist plId plName videos] }
    else .ok d

/-- The whole local-playlists loop as a monadic fold over the playlist
rows. -/
def addLocalPlaylists (npq : NPQueryResults) (pb : Option String) (doc : LTDoc) :
    Except Unit LTDoc :=
  npq.playlists.foldlM (addOnePlaylist npq pb) doc

/-- The sanitize pass over watch positions (newer converter, lines
578-587): present positions are clamped in place. -/
def sanitizeWatchPositions (ps : List WatchPos) : List WatchPos :=
  ps.map (fun wp => match wp.position with
    | some v => { wp with position := some (.fin ((clampToSafeInt v : Int) : ℚ)) }
    | none => wp)

/-- The position map built from the document positions (newer converter,
lines 603-606): entries with a falsy video id are skipped, values clamped,
later duplicates overwrite. -/
def buildPosMap (ps : List WatchPos) : List (String × Int) :=
  ps.foldl (fun mp wp =>
    if wp.videoId = "" then mp
    else setAssoc mp wp.videoId (clampToSafeIntOpt wp.position)) []

/-- The stream-state merge fold (newer converter, lines 608-624): keep the
maximum of the existing entry (default 0) and the clamped progress. -/
def stateFold (rows : List NPStateRow) (mp0 : List (String × Int)) : List (String × Int) :=
  rows.foldl (fun mp r =>
    let url := jsStringOfOpt r.url
    let progressNum : ℚ := match r.progress_time with
      | some (.fin q) => q
      | _ => 0
    let vid := extractVideoIdFromUrl url
    if vid = "" then mp
    else
      let existing := (getAssoc mp vid).getD 0
      let progressClamped := clampToSafeInt (.fin progressNum)
      if progressClamped > existing then setAssoc mp vid progressClamped else mp) mp0

/-- Normalization of an existing history entry: the access date parsed to
epoch milliseconds (newer converter, lines 633-636). -/
def normalizeHistItem (e : LTHistItem) : LTHistItem :=
  { e with accessDate := some ((parseAccessDateToMs e.accessDate : Int) : ℚ) }

/-- The bare-channel-id shape test of the uploader-id derivation. -/
def ucIdLike (s : String) : Bool :=
  match s.toList with
  | [] => false
  | c :: rest => (c = 'U' ∨ c = 'C') ∧ rest.length ≥ 20 ∧ rest.all isWordDash

/-- Uploader-id derivation from an uploader URL (newer converter, lines
653-662). -/
def deriveUploaderId (raw : String) : String :=
  match scanTokCap "channel/".toList isWordDash raw.toList with
  | some cap => String.mk cap
  | none =>
  match scanTokCap "user/".toList isWordDash raw.toList with
  | some cap => String.mk cap
  | none => if ucIdLike raw then raw else ""

/-- The descending access-date order of the final history sort. -/
def histSortKey (e : LTHistItem) : ℚ := e.accessDate.getD 0

/-- The stream-history merge into the document history (newer converter,
lines 630-689): skipped entirely when the query returns no rows, otherwise
existing entries are normalized, per-video first-write-wins is applied to
incoming rows (the upload-date formatting runs before the skip test and may
throw), and the union is sorted by descending access date. -/
def histPushStep (existingKeys : List String) (acc : List LTHistItem) (r : NPHistRow) :
    Except Unit (List LTHistItem) :=
  let url := jsStringOfOpt r.url
  let vid := extractVideoIdFromUrl url
  if vid = "" then .ok acc
  else
    match formatUploadDate r.upload_date with
    | .error e => .error e
    | .ok uploadDate =>
      if vid ∈ existingKeys then .ok acc
      else
        let entry : LTHistItem :=
          { videoId := vid,
            title := r.title.getD "",
            uploadDate := uploadDate,
            uploader := r.uploader.getD "",
            uploaderUrl := deriveUploaderId (r.uploader_url.getD ""),
            uploaderAvatar := "",
            thumbnailUrl := some (r.thumbnail_url.getD ""),
            duration := clampToSafeIntOpt r.duration,
            accessDate := some ((parseAccessDateToMs r.access_date : Int) : ℚ) }
        .ok (acc ++ [entry])

/-- The whole merge wrapped around the push fold. -/
def histMerge (rows : List NPHistRow) (doc : LTDoc) : Except Unit LTDoc :=
  if rows.isEmpty then .ok doc
  else
    match rows.foldlM
        (histPushStep ((((doc.watchHistory.map normalizeHistItem).filter
          (fun e => e.videoId != "")).map (fun e => e.videoId))))
        (doc.watchHistory.map normalizeHistItem) with
    | .error e => .error e
    | .ok pushed =>
        .ok { doc with watchHistory :=
                stableSort (fun a b => histSortKey b < histSortKey a) pushed }

/-- The unconditional rebuild of watch positions followed by the history
merge, the body of the guarded import block (newer converter, lines
592-693); a throw inside the history merge is caught, leaving the document
as of the positions rebuild. -/
def positionsStep (npq : NPQueryResults) (doc : LTDoc) : LTDoc :=
  let mp2 := stateFold npq.stateRows (buildPosMap doc.watchPositions)
  { doc with watchPositions :=
      mp2.map (fun p => { videoId := p.1, position := some (.fin ((p.2 : Int) : ℚ)) }) }

/-- The watch-history import step with its catch clause. -/
def historyImport (npq : NPQueryResults) (includeWatchHistory : Bool) (doc : LTDoc) : LTDoc :=
  if includeWatchHistory then
    match histMerge npq.histRows (positionsStep npq doc) with
    | .ok d2 => d2
    | .error _ => positionsStep npq doc
  else doc

/-- Restoring the snapshot of the other playlist-named keys. -/
def restoreExtras (cur : List (String × String)) (snap : List (String × String)) :
    List (String × String) :=
  snap.foldl (fun c kv => setAssoc c kv.1 kv.2) cur

/-- convertToLibreTube (newer converter, lines 358-700): merge-mode
initialization with the playlist snapshot and behaviour dispatch, then
subscription, remote-playlist and local-playlist extraction, the
target-only restore, the sanitize pass, and the watch-history import. -/
def convertToLibreTube (npq : NPQueryResults) (ltParsed : Option LTDoc) (mode : String)
    (playlistBehavior : Option String) (includeWatchHistoryParam : Option Bool) :
    Except Unit LTDoc :=
  let emptyDoc : LTDoc := ⟨[], [], [], [], [], []⟩
  let pb : Option String := match playlistBehavior with
    | some s => if s = "" then none else some s
    | none => none
  let init : LTDoc × Option (List LTBookmark × List LTLocalPlaylist ×
      List (String × String)) × Bool :=
    if mode = "merge" then
      match ltParsed with
      | some parsed =>
          let preserved := some (parsed.playlistBookmarks, parsed.localPlaylists,
            parsed.extraPlaylistKeys)
          if pb = some "only_newpipe" then
            ({ parsed with subscriptions := [], playlistBookmarks := [],
                           localPlaylists := [] }, preserved, false)
          else if pb = some "only_libretube" then (parsed, preserved, true)
          else (parsed, preserved, false)
      | none => (emptyDoc, none, false)
    else (emptyDoc, none, false)
  let targetData0 := init.1
  let preserved := init.2.1
  let skipImportPlaylists := init.2.2
  let d1 := { targetData0 with
    subscriptions := targetData0.subscriptions ++ subsExtract npq.subs }
  let d2 := if skipImportPlaylists then d1
    else { d1 with playlistBookmarks := d1.playlistBookmarks ++ remExtract npq.remotePlaylists }
  match (if skipImportPlaylists then Except.ok d2 else addLocalPlaylists npq pb d2) with
  | .error e => .error e
  | .ok d3 =>
    let restoreStep : LTDoc := match preserved with
      | some p =>
          { d3 with playlistBookmarks := p.1
                    localPlaylists := p.2.1
                    extraPlaylistKeys := restoreExtras d3.extraPlaylistKeys p.2.2 }
      | none => d3
    let d4 := if mode = "merge" ∧ playlistBehavior = some "only_libretube" then restoreStep
      else d3
    let d5 := { d4 with watchPositions := sanitizeWatchPositions d4.watchPositions }
    .ok (historyImport npq (includeWatchHistoryParam.getD true) d5)

/-- The dedup key of a day group for a habit: present only for nonempty
groups (the converter reads the first record of the group). -/
def dayKey (tz : Int) (h : Int) (day : Int × List SttRecord) : Option (Int × Int) :=
  match day.2 with
  | [] => none
  | r0 :: _ => some (h, timestampToDayStart tz r0.start_timestamp)

/-- Total number of day groups considered across all mappings of a run. -/
def totalDayCount (stt : ParsedStt) (habits : List (Int × UHabitsHabit))
    (mappings : List ConversionMapping) : Nat :=
  (mappings.map (fun m => nonEmptyDayCount (mappingDays stt habits m))).sum

/-- Accumulator-free form of the day loop: the rows inserted and the final
dedup set, as a function of the incoming dedup set only. -/
def daysDelta (tz : Int) (fill : Bool) (h : Int) :
    List (Int × List SttRecord) → List (Int × Int) →
    List UHabitsRepetition × List (Int × Int)
  | [], ex => ([], ex)
  | d :: ds, ex =>
      match d.2 with
      | [] => daysDelta tz fill h ds ex
      | r0 :: _ =>
          let kTs := timestampToDayStart tz r0.start_timestamp
          if (h, kTs) ∈ ex then daysDelta tz fill h ds ex
          else
            let row : UHabitsRepetition :=
              { habit_id := h, timestamp := kTs, value := 2
                notes := repetitionNotes fill d.2 }
            let rest := daysDelta tz fill h ds ((h, kTs) :: ex)
            (row :: rest.1, rest.2)

/-- Accumulator-free form of the mapping loop: the per-mapping row blocks
in mapping order and the final dedup set. -/
def mappingsDelta (tz : Int) (fill : Bool) (stt : ParsedStt)
    (habits : List (Int × UHabitsHabit)) :
    List ConversionMapping → List (Int × Int) →
    List (List UHabitsRepetition) × List (Int × Int)
  | [], ex => ([], ex)
  | m :: ms, ex =>
      let d := daysDelta tz fill m.uhabitsHabitId (mappingDays stt habits m) ex
      let rest := mappingsDelta tz fill stt habits ms d.2
      (d.1 :: rest.1, rest.2)

/-- Invariant of a conversion state relative to the initial key set: all
inserted keys are registered in the dedup set, inserted keys are pairwise
distinct, the dedup set holds only base keys and inserted keys, base keys
stay registered, and inserted keys avoid the base. -/
def ConvInvariant (base : List (Int × Int)) (st : ConvState) : Prop :=
  (∀ k ∈ keysOf st.newRows, k ∈ st.existingReps)
  ∧ (keysOf st.newRows).Nodup
  ∧ (∀ k ∈ st.existingReps, k ∈ base ∨ k ∈ keysOf st.newRows)
  ∧ (∀ k ∈ base, k ∈ st.existingReps)
  ∧ (∀ k ∈ keysOf st.newRows, k ∉ base)

/-- The contribution of one stream-state row to the merged offset of a
given video id: the maximum with the clamped progress when the row resolves
to that id. -/
def stateContrib (vid : String) (a : Int) (r : NPStateRow) : Int :=
  let url := jsStringOfOpt r.url
  let progressNum : ℚ := match r.progress_time with
    | some (.fin q) => q
    | _ => 0
  if extractVideoIdFromUrl url = vid then max a (clampToSafeInt (.fin progressNum)) else a

/-- Concrete STT backup with two commented records on the same day,
exercising the copy-comments flag. -/
def commentsStt : ParsedStt :=
  { recordTypes := [(1, ⟨1, "Guitar", "", 0, 0⟩)]
    records := [⟨1, 1, 0, 120000, some "practiced scales"⟩,
                ⟨2, 1, 3600000, 3720000, some "learned a song"⟩] }

/-- Concrete uHabits backup with one boolean habit and no repetitions. -/
def commentsUh : ParsedUHabits :=
  { booleanHabits := [(1, ⟨"Guitar", 0⟩)], repetitions := [] }

/-- The mapping of the copy-comments example, parametrized by the flag. -/
def commentsMapping (flag : Bool) : ConversionMapping :=
  { sttTypeId := 1, uhabitsHabitId := 1, minDuration := none, copySttComments := flag }

/-- A history entry for stream X at the given epoch-millisecond access
time (all other fields absent). -/
def histEntryAt (ms : ℚ) : LTHistEntry :=
  ⟨some "X", none, none, none, none, none, none, none, some ms, none⟩

/-- A fresh NewPipe database. -/
def emptyNPDb : NPDb := ⟨[], [], [], 1⟩

/-- A NewPipe database already holding stream X and one history row at
2000000000000 milliseconds. -/
def mergeNPDb : NPDb :=
  ⟨[⟨1, 0, "https://www.youtube.com/watch?v=X", "Unknown", "VIDEO_STREAM", 0,
     "Unknown", none, none⟩],
   [⟨1, 2000000000000, 1⟩], [], 2⟩

/-- An empty query-result set for the structured source. -/
def npqEmpty : NPQueryResults :=
  { subs := [], remotePlaylists := [], playlists := [], videosOf := fun _ => [],
    stateRows := [], histRows := [] }

/-- Query results holding one stream-state row, at progress 500, for one
video. -/
def posNpq : NPQueryResults :=
  { subs := [], remotePlaylists := [], playlists := [], videosOf := fun _ => [],
    stateRows := [⟨some "https://www.youtube.com/watch?v=abcdefghijk", some (.fin 500)⟩],
    histRows := [] }

/-- A flat document whose only content is a watch position of 300 for the
same video. -/
def posParsed : LTDoc := ⟨[], [], [], [], [⟨"abcdefghijk", some (.fin 300)⟩], []⟩

/-- The mirrored scenario: progress 300 in the stream-state row. -/
def posNpq2 : NPQueryResults :=
  { subs := [], remotePlaylists := [], playlists := [], videosOf := fun _ => [],
    stateRows := [⟨some "https://www.youtube.com/watch?v=abcdefghijk", some (.fin 300)⟩],
    histRows := [] }

/-- The mirrored scenario: a pre-existing watch position of 500. -/
def posParsed2 : LTDoc := ⟨[], [], [], [], [⟨"abcdefghijk", some (.fin 500)⟩], []⟩

/-- The document produced by the structured-to-flat conversion on posNpq
and posParsed in merge mode with the watch-history flag set. -/
def posOut : LTDoc :=
  match convertToLibreTube posNpq (some posParsed) "merge" none (some true) with
  | .ok d => d
  | .error _ => ⟨[], [], [], [], [], []⟩

/-- A flat document with nonempty playlist-related fields. -/
def extrasParsed : LTDoc :=
  ⟨[], [],
   [⟨"PL1", "bookmarked", none, none, "", 3⟩],
   [⟨⟨7, "mine", none⟩, []⟩],
   [],
   [("playlists_custom", "x"), ("playlistsBackup", "y")]⟩

/-- Query results whose playlist content would, were it imported, change
the playlist fields of the target document. -/
def extrasNpq : NPQueryResults :=
  { subs := [],
    remotePlaylists :=
      [⟨some "r", some "https://www.youtube.com/playlist?list=LLabc", none, none,
        some (.fin 4)⟩],
    playlists := [⟨9, some "incoming"⟩], videosOf := fun _ => [],
    stateRows := [], histRows := [] }

/-- The document produced under the target-only conflict policy on the
extras scenario. -/
def extrasOut : LTDoc :=
  match convertToLibreTube extrasNpq (some extrasParsed) "merge" (some "only_libretube")
      (some false) with
  | .ok d => d
  | .error _ => ⟨[], [], [], [], [], []⟩

/-! ### Bridging lemmas for the numeric primitives -/

theorem ratFloor_eq (q : ℚ) : ratFloor q = ⌊q⌋ := by
  rw [ratFloor, Int.fdiv_eq_ediv _ (by positivity), Rat.floor_def]

theorem ratTrunc_of_nonneg {q : ℚ} (h : 0 ≤ q) : ratTrunc q = ⌊q⌋ := by
  rw [ratTrunc, if_pos h, ratFloor_eq]

theorem ratTrunc_of_neg {q : ℚ} (h : ¬ 0 ≤ q) : ratTrunc q = -⌊-q⌋ := by
  rw [ratTrunc, if_neg h, ratFloor_eq]

theorem ratTrunc_bounds {q : ℚ} {M : Int} (hM : 0 ≤ M)
    (hlo : -(M : ℚ) ≤ q) (hhi : q ≤ (M : ℚ)) : -M ≤ ratTrunc q ∧ ratTrunc q ≤ M := by
  by_cases h : 0 ≤ q
  · rw [ratTrunc_of_nonneg h]
    constructor
    · have := Int.floor_nonneg.mpr h
      omega
    · have := Int.floor_mono hhi
      rwa [Int.floor_intCast] at this
  · rw [ratTrunc_of_neg h]
    have h1 : (0 : ℚ) ≤ -q := by linarith
    have h2 : -q ≤ (M : ℚ) := by linarith
    have := Int.floor_mono h2
    rw [Int.floor_intCast] at this
    have := Int.floor_nonneg.mpr h1
    omega

/-! ### Claim theorems: field codecs -/

/-- C5: clampToSafeInt returns the truncated integer part of the numeric
value clamped to the closed interval between minus and plus 9007199254740991,
every non-finite value gives 0, and the three quoted inputs give the quoted
outputs. -/
theorem clampToSafeInt_correct :
    (∀ v : JSNum, clampToSafeInt v = clampToSafeIntSpec v)
    ∧ clampToSafeInt (.fin 100000000000000000000) = 9007199254740991
    ∧ clampToSafeInt (.fin (-100000000000000000000)) = -9007199254740991
    ∧ clampToSafeInt .nan = 0 := by
  refine ⟨?_, by decide, by decide, rfl⟩
  intro v
  cases v with
  | nan => rfl
  | posInf => rfl
  | negInf => rfl
  | fin q =>
    by_cases h0 : q = 0
    · subst h0; decide
    · have hM : (0 : Int) < MAX_SAFE_NUM := by decide
      have hMQ : (0 : ℚ) < (MAX_SAFE_NUM : ℚ) := by exact_mod_cast hM
      simp only [clampToSafeInt, clampToSafeIntSpec, jsTruthy]
      rw [if_pos (by simpa using h0)]
      dsimp only
      split_ifs with h1 h2
      · have h0q : (0 : ℚ) ≤ q := le_of_lt (lt_trans hMQ h1)
        have ht : MAX_SAFE_NUM ≤ ratTrunc q := by
          rw [ratTrunc_of_nonneg h0q]
          exact Int.le_floor.mpr (le_of_lt h1)
        rw [inf_eq_left.mpr ht, sup_eq_right.mpr (by decide : -MAX_SAFE_NUM ≤ MAX_SAFE_NUM)]
      · have hq0 : ¬ (0 : ℚ) ≤ q := by intro hc; linarith
        have ht : ratTrunc q ≤ -MAX_SAFE_NUM := by
          rw [ratTrunc_of_neg hq0]
          have hf : MAX_SAFE_NUM ≤ ⌊-q⌋ := Int.le_floor.mpr (by linarith)
          omega
        have htM : ratTrunc q ≤ MAX_SAFE_NUM := by omega
        rw [inf_eq_right.mpr htM, sup_eq_left.mpr ht]
      · have hb := ratTrunc_bounds (M := MAX_SAFE_NUM) (q := q) (le_of_lt hM)
          (le_of_not_lt h2) (le_of_not_lt h1)
        rw [inf_eq_right.mpr hb.2, sup_eq_right.mpr hb.1]

/-- Helper: for magnitudes strictly above 10 to the 12 the millisecond
branch of the heuristic applies. -/
theorem formatUploadDateNum_ms {q : ℚ} (h : |q| > 1000000000000) :
    formatUploadDateNum q = dateToIsoDatePart q := by
  rw [formatUploadDateNum]
  rw [if_neg (by push_neg; intro h1; linarith), if_pos h]

/-- Helper: for magnitudes from 10 to the 9 up to and including 10 to the
12 the second branch of the heuristic applies. -/
theorem formatUploadDateNum_seconds {q : ℚ} (h1 : 1000000000 ≤ |q|)
    (h2 : |q| ≤ 1000000000000) :
    formatUploadDateNum q = dateToIsoDatePart (q * 1000) := by
  rw [formatUploadDateNum]
  rw [if_neg (by push_neg; intro hx; linarith), if_neg (by linarith), if_pos h1]

/-- C6 counterexample: at the boundary input 10 to the 12, the claimed
millisecond interpretation would yield 2001-09-09, but formatUploadDate
takes the second branch and yields the expanded-year date of 10 to the 15
milliseconds; and at numeric input 10 to the 16 the millisecond branch
exceeds the representable Date range, so the function throws instead of
returning a default. -/
theorem formatUploadDate_boundary_counterexample :
    formatUploadDate (.num 1000000000000) = .ok "+033658-09-27"
    ∧ formatUploadDate (.num 1000000000000) ≠ .ok "2001-09-09"
    ∧ isoDatePartOfMs 1000000000000 = "2001-09-09"
    ∧ formatUploadDate (.num 10000000000000000) = .error () := by
  have hs := formatUploadDateNum_seconds (q := 1000000000000) (by norm_num) (by norm_num)
  rw [show (1000000000000 : ℚ) * 1000 = 1000000000000000 by norm_num] at hs
  have hd : dateToIsoDatePart (1000000000000000 : ℚ) = .ok "+033658-09-27" := by decide
  have e1 : formatUploadDate (.num 1000000000000) = .ok "+033658-09-27" := by
    show formatUploadDateNum 1000000000000 = _
    rw [hs, hd]
  refine ⟨e1, ?_, by decide, ?_⟩
  · rw [e1]
    intro h
    have h2 : ("+033658-09-27" : String) = "2001-09-09" := by injection h
    exact absurd h2 (by decide)
  · show formatUploadDateNum 10000000000000000 = .error ()
    rw [formatUploadDateNum_ms (by norm_num)]
    decide

/-- C6 (amended): the millisecond branch applies exactly to magnitudes
strictly above 10 to the 12; the second branch applies to magnitudes from
10 to the 9 up to and including 10 to the 12 and never throws there; the
millisecond branch returns a date (does not throw) whenever the magnitude
stays within the representable Date range; compact date 20230424 renders as
2023-04-24; the ten-digit second count 1691576017 renders as its ISO
calendar date 2023-08-09; and non-numeric unparseable or empty input yields
1970-01-01 without throwing. -/
theorem formatUploadDate_amended :
    (∀ q : ℚ, |q| > 1000000000000 → formatUploadDateNum q = dateToIsoDatePart q)
    ∧ (∀ q : ℚ, 1000000000 ≤ |q| → |q| ≤ 1000000000000 →
        formatUploadDateNum q = dateToIsoDatePart (q * 1000))
    ∧ (∀ q : ℚ, 1000000000 ≤ |q| → |q| ≤ 1000000000000 →
        formatUploadDateNum q = .ok (isoDatePartOfMs (ratTrunc (q * 1000))))
    ∧ (∀ q : ℚ, |q| > 1000000000000 → |q| ≤ MAX_TIME_VALUE →
        formatUploadDateNum q = .ok (isoDatePartOfMs (ratTrunc q)))
    ∧ formatUploadDate (.num 20230424) = .ok "2023-04-24"
    ∧ formatUploadDate (.num 1691576017) = .ok "2023-08-09"
    ∧ formatUploadDate .badStr = .ok "1970-01-01"
    ∧ formatUploadDate .undef = .ok "1970-01-01" := by
  have hsec : formatUploadDate (.num 1691576017) = .ok "2023-08-09" := by
    show formatUploadDateNum 1691576017 = _
    rw [formatUploadDateNum_seconds (by norm_num) (by norm_num)]
    rw [show (1691576017 : ℚ) * 1000 = 1691576017000 by norm_num]
    decide
  refine ⟨fun q h => formatUploadDateNum_ms h,
    fun q h1 h2 => formatUploadDateNum_seconds h1 h2, ?_, ?_, rfl, hsec, rfl, rfl⟩
  · intro q h1 h2
    rw [formatUploadDateNum_seconds h1 h2, dateToIsoDatePart, if_neg ?_]
    rw [MAX_TIME_VALUE]
    push_neg
    calc |q * 1000| = |q| * 1000 := by rw [abs_mul]; norm_num
    _ ≤ 1000000000000 * 1000 := by nlinarith [abs_nonneg q]
    _ ≤ 8640000000000000 := by norm_num
  · intro q h1 h2
    rw [formatUploadDateNum_ms h1, dateToIsoDatePart,
      if_neg (by rw [MAX_TIME_VALUE]; push_neg; exact h2)]


/-! ### Lemmas about the time-record converter -/

theorem foldl_preserve {α β : Type} {P : β → Prop} (f : β → α → β)
    (hstep : ∀ b a, P b → P (f b a)) :
    ∀ (l : List α) (b : β), P b → P (l.foldl f b)
  | [], _, hb => hb
  | a :: l, b, hb => foldl_preserve f hstep l (f b a) (hstep b a hb)

theorem processDay_existing_mono (tz : Int) (fill : Bool) (h : Int) (st : ConvState)
    (day : Int × List SttRecord) :
    ∀ k ∈ st.existingReps, k ∈ (processDay tz fill h st day).existingReps := by
  rcases day with ⟨dk, recs⟩
  cases recs with
  | nil => intro k hk; exact hk
  | cons r0 rs =>
      intro k hk
      simp only [processDay]
      split_ifs with hmem
      · exact hk
      · exact List.mem_cons_of_mem _ hk

theorem foldDays_existing_mono (tz : Int) (fill : Bool) (h : Int) :
    ∀ (days : List (Int × List SttRecord)) (st : ConvState),
      ∀ k ∈ st.existingReps, k ∈ (days.foldl (processDay tz fill h) st).existingReps
  | [], _, _, hk => hk
  | d :: ds, st, k, hk =>
      foldDays_existing_mono tz fill h ds (processDay tz fill h st d) k
        (processDay_existing_mono tz fill h st d k hk)

theorem foldDays_key_mem (tz : Int) (fill : Bool) (h : Int) :
    ∀ (days : List (Int × List SttRecord)) (st : ConvState),
      ∀ d ∈ days, ∀ k, dayKey tz h d = some k →
        k ∈ (days.foldl (processDay tz fill h) st).existingReps := by
  intro days
  induction days with
  | nil => intro st d hd; cases hd
  | cons d0 ds ih =>
      intro st d hd k hk
      rw [List.foldl_cons]
      rcases List.mem_cons.mp hd with hd | hd
      · subst hd
        have hmem : k ∈ (processDay tz fill h st d).existingReps := by
          rcases d with ⟨dk0, recs⟩
          cases recs with
          | nil => simp [dayKey] at hk
          | cons r0 rs =>
              simp only [dayKey] at hk
              injection hk with hk
              subst hk
              simp only [processDay]
              split_ifs with hmem0
              · exact hmem0
              · exact List.mem_cons_self _ _
        exact foldDays_existing_mono tz fill h ds _ k hmem
      · exact ih (processDay tz fill h st d0) d hd k hk

theorem foldDays_all_skip (tz : Int) (fill : Bool) (h : Int) :
    ∀ (days : List (Int × List SttRecord)) (st : ConvState),
      (∀ d ∈ days, ∀ k, dayKey tz h d = some k → k ∈ st.existingReps) →
      days.foldl (processDay tz fill h) st
        = { st with skipped := st.skipped + nonEmptyDayCount days } := by
  intro days
  induction days with
  | nil =>
      intro st _
      simp [nonEmptyDayCount]
  | cons d0 ds ih =>
      intro st hmem
      rcases d0 with ⟨dk0, recs⟩
      rw [List.foldl_cons]
      cases recs with
      | nil =>
          have h1 : processDay tz fill h st (dk0, []) = st := rfl
          rw [h1, ih st (fun d hd => hmem d (List.mem_cons_of_mem _ hd))]
          have hc : nonEmptyDayCount ((dk0, ([] : List SttRecord)) :: ds)
              = nonEmptyDayCount ds := by
            simp [nonEmptyDayCount]
          rw [hc]
      | cons r0 rs =>
          have hk := hmem (dk0, r0 :: rs) (List.mem_cons_self _ _)
            (h, timestampToDayStart tz r0.start_timestamp) rfl
          have h1 : processDay tz fill h st (dk0, r0 :: rs)
              = { st with skipped := st.skipped + 1 } := by
            simp only [processDay]
            rw [if_pos hk]
          rw [h1, ih { st with skipped := st.skipped + 1 }
            (fun d hd k hk2 => hmem d (List.mem_cons_of_mem _ hd) k hk2)]
          have hc : nonEmptyDayCount ((dk0, r0 :: rs) :: ds)
              = nonEmptyDayCount ds + 1 := by
            simp [nonEmptyDayCount, Nat.add_comm]
          rw [hc]
          have harith : st.skipped + 1 + nonEmptyDayCount ds
              = st.skipped + (nonEmptyDayCount ds + 1) := by omega
          rw [harith]

theorem keysOf_append (a b : List UHabitsRepetition) :
    keysOf (a ++ b) = keysOf a ++ keysOf b := by
  simp [keysOf]

theorem processDay_inv (tz : Int) (fill : Bool) (h : Int)
    (base : List (Int × Int)) (st : ConvState) (day : Int × List SttRecord)
    (hinv : ConvInvariant base st) :
    ConvInvariant base (processDay tz fill h st day) := by
  obtain ⟨h1, h2, h3, h4, h5⟩ := hinv
  rcases day with ⟨dk, recs⟩
  cases recs with
  | nil => exact ⟨h1, h2, h3, h4, h5⟩
  | cons r0 rs =>
      simp only [processDay]
      split_ifs with hmem
      · exact ⟨h1, h2, h3, h4, h5⟩
      · set ts := timestampToDayStart tz r0.start_timestamp with hts
        have hkeys : keysOf (st.newRows ++
            [{ habit_id := h, timestamp := ts, value := 2
               notes := repetitionNotes fill (r0 :: rs) }])
            = keysOf st.newRows ++ [(h, ts)] := by
          rw [keysOf_append]; rfl
        refine ⟨?_, ?_, ?_, ?_, ?_⟩
        · intro k hk
          rw [hkeys] at hk
          rcases List.mem_append.mp hk with hk | hk
          · exact List.mem_cons_of_mem _ (h1 k hk)
          · simp only [List.mem_singleton] at hk
            subst hk
            exact List.mem_cons_self _ _
        · rw [hkeys]
          have hnot : (h, ts) ∉ keysOf st.newRows := fun hc => hmem (h1 _ hc)
          refine List.Nodup.append h2 (List.nodup_singleton _) ?_
          intro a ha hb
          rw [List.mem_singleton] at hb
          subst hb
          exact hnot ha
        · intro k hk
          rcases List.mem_cons.mp hk with hk | hk
          · subst hk
            right
            rw [hkeys]
            simp
          · rcases h3 k hk with hb | hb
            · exact Or.inl hb
            · right; rw [hkeys]; exact List.mem_append_left _ hb
        · intro k hk
          exact List.mem_cons_of_mem _ (h4 k hk)
        · intro k hk
          rw [hkeys] at hk
          rcases List.mem_append.mp hk with hk | hk
          · exact h5 k hk
          · simp only [List.mem_singleton] at hk
            subst hk
            intro hkb
            exact hmem (h4 _ hkb)

theorem foldDays_inv (tz : Int) (fill : Bool) (h : Int)
    (base : List (Int × Int)) (days : List (Int × List SttRecord)) (st : ConvState)
    (hinv : ConvInvariant base st) :
    ConvInvariant base (days.foldl (processDay tz fill h) st) :=
  foldl_preserve _ (fun b a hb => processDay_inv tz fill h base b a hb) days st hinv

theorem foldMappings_inv (tz : Int) (fill : Bool) (stt : ParsedStt)
    (habits : List (Int × UHabitsHabit)) (base : List (Int × Int))
    (ms : List ConversionMapping) (st : ConvState)
    (hinv : ConvInvariant base st) :
    ConvInvariant base (ms.foldl (processMapping tz fill stt habits) st) :=
  foldl_preserve _ (fun b m hb =>
    foldDays_inv tz fill m.uhabitsHabitId base (mappingDays stt habits m) b hb) ms st hinv

theorem foldMappings_existing_mono (tz : Int) (fill : Bool) (stt : ParsedStt)
    (habits : List (Int × UHabitsHabit)) :
    ∀ (ms : List ConversionMapping) (st : ConvState),
      ∀ k ∈ st.existingReps,
        k ∈ (ms.foldl (processMapping tz fill stt habits) st).existingReps
  | [], _, _, hk => hk
  | m :: ms, st, k, hk =>
      foldMappings_existing_mono tz fill stt habits ms _ k
        (foldDays_existing_mono tz fill m.uhabitsHabitId (mappingDays stt habits m) st k hk)

theorem foldMappings_key_mem (tz : Int) (fill : Bool) (stt : ParsedStt)
    (habits : List (Int × UHabitsHabit)) :
    ∀ (ms : List ConversionMapping) (st : ConvState),
      ∀ m ∈ ms, ∀ d ∈ mappingDays stt habits m, ∀ k,
        dayKey tz m.uhabitsHabitId d = some k →
        k ∈ (ms.foldl (processMapping tz fill stt habits) st).existingReps := by
  intro ms
  induction ms with
  | nil => intro st m hm; cases hm
  | cons m0 ms ih =>
      intro st m hm d hd k hk
      rw [List.foldl_cons]
      rcases List.mem_cons.mp hm with hm | hm
      · subst hm
        have : k ∈ (processMapping tz fill stt habits st m).existingReps :=
          foldDays_key_mem tz fill m.uhabitsHabitId (mappingDays stt habits m) st d hd k hk
        exact foldMappings_existing_mono tz fill stt habits ms _ k this
      · exact ih (processMapping tz fill stt habits st m0) m hm d hd k hk

theorem foldMappings_all_skip (tz : Int) (fill : Bool) (stt : ParsedStt)
    (habits : List (Int × UHabitsHabit)) :
    ∀ (ms : List ConversionMapping) (st : ConvState),
      (∀ m ∈ ms, ∀ d ∈ mappingDays stt habits m, ∀ k,
         dayKey tz m.uhabitsHabitId d = some k → k ∈ st.existingReps) →
      ms.foldl (processMapping tz fill stt habits) st
        = { st with skipped := st.skipped + totalDayCount stt habits ms } := by
  intro ms
  induction ms with
  | nil =>
      intro st _
      simp [totalDayCount]
  | cons m0 ms ih =>
      intro st hmem
      rw [List.foldl_cons]
      have h1 : processMapping tz fill stt habits st m0
          = { st with skipped := st.skipped
                + nonEmptyDayCount (mappingDays stt habits m0) } :=
        foldDays_all_skip tz fill m0.uhabitsHabitId (mappingDays stt habits m0) st
          (fun d hd k hk => hmem m0 (List.mem_cons_self _ _) d hd k hk)
      rw [h1, ih { st with skipped := st.skipped
            + nonEmptyDayCount (mappingDays stt habits m0) }
          (fun m hm d hd k hk => hmem m (List.mem_cons_of_mem _ hm) d hd k hk)]
      have hc : totalDayCount stt habits (m0 :: ms)
          = nonEmptyDayCount (mappingDays stt habits m0) + totalDayCount stt habits ms := by
        simp [totalDayCount]
      rw [hc]
      have harith : st.skipped + nonEmptyDayCount (mappingDays stt habits m0)
            + totalDayCount stt habits ms
          = st.skipped + (nonEmptyDayCount (mappingDays stt habits m0)
            + totalDayCount stt habits ms) := by omega
      rw [harith]

theorem processDay_count (tz : Int) (fill : Bool) (h : Int) (st : ConvState)
    (day : Int × List SttRecord) :
    (processDay tz fill h st day).skipped + (processDay tz fill h st day).totalNew
      = st.skipped + st.totalNew + (if day.2.isEmpty then 0 else 1) := by
  rcases day with ⟨dk, recs⟩
  cases recs with
  | nil =>
      have hif : (if ((dk, ([] : List SttRecord)) : Int × List SttRecord).2.isEmpty
          then (0 : Nat) else 1) = 0 := rfl
      rw [hif]
      dsimp only [processDay]
      omega
  | cons r0 rs =>
      have hif : (if ((dk, r0 :: rs) : Int × List SttRecord).2.isEmpty
          then (0 : Nat) else 1) = 1 := rfl
      rw [hif]
      simp only [processDay]
      split_ifs with hmem
      · dsimp only
        omega
      · dsimp only
        omega

theorem foldDays_count (tz : Int) (fill : Bool) (h : Int) :
    ∀ (days : List (Int × List SttRecord)) (st : ConvState),
      (days.foldl (processDay tz fill h) st).skipped
          + (days.foldl (processDay tz fill h) st).totalNew
        = st.skipped + st.totalNew + nonEmptyDayCount days := by
  intro days
  induction days with
  | nil => intro st; simp [nonEmptyDayCount]
  | cons d0 ds ih =>
      intro st
      rw [List.foldl_cons, ih]
      rw [processDay_count]
      have : nonEmptyDayCount (d0 :: ds)
          = (if d0.2.isEmpty then 0 else 1) + nonEmptyDayCount ds := by
        rcases d0 with ⟨dk, recs⟩
        cases recs
        · simp [nonEmptyDayCount]
        · simp [nonEmptyDayCount]
          omega
      rw [this]
      omega

theorem foldMappings_count (tz : Int) (fill : Bool) (stt : ParsedStt)
    (habits : List (Int × UHabitsHabit)) :
    ∀ (ms : List ConversionMapping) (st : ConvState),
      (ms.foldl (processMapping tz fill stt habits) st).skipped
          + (ms.foldl (processMapping tz fill stt habits) st).totalNew
        = st.skipped + st.totalNew + totalDayCount stt habits ms := by
  intro ms
  induction ms with
  | nil => intro st; simp [totalDayCount]
  | cons m0 ms ih =>
      intro st
      rw [List.foldl_cons, ih]
      have h1 := foldDays_count tz fill m0.uhabitsHabitId (mappingDays stt habits m0) st
      have hc : totalDayCount stt habits (m0 :: ms)
          = nonEmptyDayCount (mappingDays stt habits m0) + totalDayCount stt habits ms := by
        simp [totalDayCount]
      rw [hc]
      have h2 : (processMapping tz fill stt habits st m0).skipped
          + (processMapping tz fill stt habits st m0).totalNew
          = st.skipped + st.totalNew + nonEmptyDayCount (mappingDays stt habits m0) := h1
      omega


theorem foldDays_delta (tz : Int) (fill : Bool) (h : Int) :
    ∀ (days : List (Int × List SttRecord)) (st : ConvState),
      (days.foldl (processDay tz fill h) st).newRows
          = st.newRows ++ (daysDelta tz fill h days st.existingReps).1
      ∧ (days.foldl (processDay tz fill h) st).existingReps
          = (daysDelta tz fill h days st.existingReps).2 := by
  intro days
  induction days with
  | nil => intro st; exact ⟨(List.append_nil _).symm, rfl⟩
  | cons d0 ds ih =>
      intro st
      rw [List.foldl_cons]
      rcases d0 with ⟨dk, recs⟩
      cases recs with
      | nil => exact ih st
      | cons r0 rs =>
          by_cases hmem : (h, timestampToDayStart tz r0.start_timestamp) ∈ st.existingReps
          · have h0 : processDay tz fill h st (dk, r0 :: rs)
                = { st with skipped := st.skipped + 1 } := by
              simp only [processDay]
              rw [if_pos hmem]
            have hd : daysDelta tz fill h ((dk, r0 :: rs) :: ds) st.existingReps
                = daysDelta tz fill h ds st.existingReps := by
              simp only [daysDelta]
              rw [if_pos hmem]
            rw [h0, hd]
            exact ih { st with skipped := st.skipped + 1 }
          · have h0 : processDay tz fill h st (dk, r0 :: rs)
                = { existingReps :=
                      (h, timestampToDayStart tz r0.start_timestamp) :: st.existingReps
                    newRows := st.newRows ++
                      [{ habit_id := h, timestamp := timestampToDayStart tz r0.start_timestamp
                         value := 2, notes := repetitionNotes fill (r0 :: rs) }]
                    totalNew := st.totalNew + 1
                    skipped := st.skipped } := by
              simp only [processDay]
              rw [if_neg hmem]
            have hd : daysDelta tz fill h ((dk, r0 :: rs) :: ds) st.existingReps
                = (({ habit_id := h, timestamp := timestampToDayStart tz r0.start_timestamp
                      value := 2, notes := repetitionNotes fill (r0 :: rs) } : UHabitsRepetition)
                     :: (daysDelta tz fill h ds
                         ((h, timestampToDayStart tz r0.start_timestamp)
                           :: st.existingReps)).1,
                    (daysDelta tz fill h ds
                        ((h, timestampToDayStart tz r0.start_timestamp)
                          :: st.existingReps)).2) := by
              simp only [daysDelta]
              rw [if_neg hmem]
            rw [h0, hd]
            obtain ⟨ha, hb⟩ := ih
              ⟨(h, timestampToDayStart tz r0.start_timestamp) :: st.existingReps,
               st.newRows ++
                 [{ habit_id := h, timestamp := timestampToDayStart tz r0.start_timestamp
                    value := 2, notes := repetitionNotes fill (r0 :: rs) }],
               st.totalNew + 1, st.skipped⟩
            refine ⟨?_, hb⟩
            rw [ha]
            simp [List.append_assoc]

theorem processMapping_eq (tz : Int) (fill : Bool) (stt : ParsedStt)
    (habits : List (Int × UHabitsHabit)) (st : ConvState) (m : ConversionMapping) :
    processMapping tz fill stt habits st m
      = (mappingDays stt habits m).foldl (processDay tz fill m.uhabitsHabitId) st := rfl

theorem foldMappings_delta (tz : Int) (fill : Bool) (stt : ParsedStt)
    (habits : List (Int × UHabitsHabit)) :
    ∀ (ms : List ConversionMapping) (st : ConvState),
      (ms.foldl (processMapping tz fill stt habits) st).newRows
          = st.newRows ++ (mappingsDelta tz fill stt habits ms st.existingReps).1.flatten
      ∧ (ms.foldl (processMapping tz fill stt habits) st).existingReps
          = (mappingsDelta tz fill stt habits ms st.existingReps).2 := by
  intro ms
  induction ms with
  | nil => intro st; exact ⟨(List.append_nil _).symm, rfl⟩
  | cons m0 ms ih =>
      intro st
      rw [List.foldl_cons]
      obtain ⟨ha, hb⟩ := foldDays_delta tz fill m0.uhabitsHabitId (mappingDays stt habits m0) st
      obtain ⟨hc, hd⟩ := ih (processMapping tz fill stt habits st m0)
      rw [processMapping_eq] at hc hd
      constructor
      · rw [processMapping_eq, hc, ha, hb]
        simp only [mappingsDelta, List.flatten_cons, List.append_assoc]
      · rw [processMapping_eq, hd, hb]
        simp only [mappingsDelta]

theorem ConvInvariant_init (base : List (Int × Int)) :
    ConvInvariant base ⟨base, [], 0, 0⟩ := by
  refine ⟨?_, ?_, ?_, ?_, ?_⟩
  · intro k hk; simp [keysOf] at hk
  · simp [keysOf]
  · intro k hk; exact Or.inl hk
  · intro k hk; exact hk
  · intro k hk; simp [keysOf] at hk

/-- C10: within a single run, at most one repetition row is inserted per
habit-and-day-start key, even when several mappings target the same habit:
the inserted rows have pairwise distinct keys, and no inserted row carries
the key of a pre-existing repetition row. -/
theorem convertSttToUHabits_no_duplicate_inserts (tz : Int) (stt : ParsedStt)
    (uh : ParsedUHabits) (mappings : List ConversionMapping) (fill : Bool) :
    (keysOf (convertSttToUHabits tz stt uh mappings fill).newRows).Nodup
    ∧ ∀ k ∈ keysOf (convertSttToUHabits tz stt uh mappings fill).newRows,
        k ∉ keysOf uh.repetitions := by
  have hinv := foldMappings_inv tz fill stt uh.booleanHabits (keysOf uh.repetitions)
    mappings ⟨keysOf uh.repetitions, [], 0, 0⟩ (ConvInvariant_init _)
  exact ⟨hinv.2.1, hinv.2.2.2.2⟩

/-- C1: re-running the converter on the database produced by a first run,
with identical inputs otherwise, inserts zero new repetition rows: the
second-run repetition table equals the first-run output table, the
second-run insertion count is zero, and every day group derived in the
second run is counted as skipped (the first-run skips plus the first-run
insertions). -/
theorem convertSttToUHabits_idempotent (tz : Int) (stt : ParsedStt) (uh : ParsedUHabits)
    (mappings : List ConversionMapping) (fill : Bool) :
    ((convertSttToUHabits tz stt
        ⟨uh.booleanHabits, (convertSttToUHabits tz stt uh mappings fill).outRepetitions⟩
        mappings fill).newRows = [])
    ∧ ((convertSttToUHabits tz stt
        ⟨uh.booleanHabits, (convertSttToUHabits tz stt uh mappings fill).outRepetitions⟩
        mappings fill).outRepetitions
      = (convertSttToUHabits tz stt uh mappings fill).outRepetitions)
    ∧ ((convertSttToUHabits tz stt
        ⟨uh.booleanHabits, (convertSttToUHabits tz stt uh mappings fill).outRepetitions⟩
        mappings fill).skipped
      = (convertSttToUHabits tz stt uh mappings fill).skipped
        + (convertSttToUHabits tz stt uh mappings fill).totalNew)
    ∧ ((convertSttToUHabits tz stt
        ⟨uh.booleanHabits, (convertSttToUHabits tz stt uh mappings fill).outRepetitions⟩
        mappings fill).totalNew = 0) := by
  have hinv := foldMappings_inv tz fill stt uh.booleanHabits (keysOf uh.repetitions)
    mappings ⟨keysOf uh.repetitions, [], 0, 0⟩ (ConvInvariant_init _)
  have hsub : ∀ k ∈ (mappings.foldl (processMapping tz fill stt uh.booleanHabits)
      ⟨keysOf uh.repetitions, [], 0, 0⟩).existingReps,
      k ∈ keysOf (uh.repetitions
        ++ (mappings.foldl (processMapping tz fill stt uh.booleanHabits)
            ⟨keysOf uh.repetitions, [], 0, 0⟩).newRows) := by
    intro k hk
    rw [keysOf_append]
    rcases hinv.2.2.1 k hk with hb | hb
    · exact List.mem_append_left _ hb
    · exact List.mem_append_right _ hb
  have hmem2 : ∀ m ∈ mappings, ∀ d ∈ mappingDays stt uh.booleanHabits m, ∀ k,
      dayKey tz m.uhabitsHabitId d = some k →
      k ∈ keysOf (uh.repetitions
        ++ (mappings.foldl (processMapping tz fill stt uh.booleanHabits)
            ⟨keysOf uh.repetitions, [], 0, 0⟩).newRows) :=
    fun m hm d hd k hk => hsub k
      (foldMappings_key_mem tz fill stt uh.booleanHabits mappings
        ⟨keysOf uh.repetitions, [], 0, 0⟩ m hm d hd k hk)
  have hfin2 := foldMappings_all_skip tz fill stt uh.booleanHabits mappings
    ⟨keysOf (uh.repetitions
        ++ (mappings.foldl (processMapping tz fill stt uh.booleanHabits)
            ⟨keysOf uh.repetitions, [], 0, 0⟩).newRows), [], 0, 0⟩
    (fun m hm d hd k hk => hmem2 m hm d hd k hk)
  have hcount := foldMappings_count tz fill stt uh.booleanHabits mappings
    ⟨keysOf uh.repetitions, [], 0, 0⟩
  dsimp only at hcount
  refine ⟨?_, ?_, ?_, ?_⟩
  · show (mappings.foldl (processMapping tz fill stt uh.booleanHabits)
      ⟨keysOf (uh.repetitions
          ++ (mappings.foldl (processMapping tz fill stt uh.booleanHabits)
              ⟨keysOf uh.repetitions, [], 0, 0⟩).newRows), [], 0, 0⟩).newRows = []
    rw [hfin2]
  · show (uh.repetitions
        ++ (mappings.foldl (processMapping tz fill stt uh.booleanHabits)
            ⟨keysOf uh.repetitions, [], 0, 0⟩).newRows)
      ++ (mappings.foldl (processMapping tz fill stt uh.booleanHabits)
        ⟨keysOf (uh.repetitions
            ++ (mappings.foldl (processMapping tz fill stt uh.booleanHabits)
                ⟨keysOf uh.repetitions, [], 0, 0⟩).newRows), [], 0, 0⟩).newRows
      = uh.repetitions
        ++ (mappings.foldl (processMapping tz fill stt uh.booleanHabits)
            ⟨keysOf uh.repetitions, [], 0, 0⟩).newRows
    rw [hfin2]
    simp
  · show (mappings.foldl (processMapping tz fill stt uh.booleanHabits)
      ⟨keysOf (uh.repetitions
          ++ (mappings.foldl (processMapping tz fill stt uh.booleanHabits)
              ⟨keysOf uh.repetitions, [], 0, 0⟩).newRows), [], 0, 0⟩).skipped
      = (mappings.foldl (processMapping tz fill stt uh.booleanHabits)
          ⟨keysOf uh.repetitions, [], 0, 0⟩).skipped
        + (mappings.foldl (processMapping tz fill stt uh.booleanHabits)
            ⟨keysOf uh.repetitions, [], 0, 0⟩).totalNew
    rw [hfin2]
    dsimp only
    omega
  · show (mappings.foldl (processMapping tz fill stt uh.booleanHabits)
      ⟨keysOf (uh.repetitions
          ++ (mappings.foldl (processMapping tz fill stt uh.booleanHabits)
              ⟨keysOf uh.repetitions, [], 0, 0⟩).newRows), [], 0, 0⟩).totalNew = 0
    rw [hfin2]

/-- C9 (amended): the inserted rows of a run are exactly the concatenation
of the per-mapping row blocks in mapping order, each block listing its day
groups in first-occurrence order; no sort by timestamp is applied, so the
ordering is deterministic in the inputs but not globally
timestamp-ordered. -/
theorem convertSttToUHabits_rows_by_mapping (tz : Int) (stt : ParsedStt)
    (uh : ParsedUHabits) (mappings : List ConversionMapping) (fill : Bool) :
    (convertSttToUHabits tz stt uh mappings fill).newRows
      = (mappingsDelta tz fill stt uh.booleanHabits mappings
          (keysOf uh.repetitions)).1.flatten := by
  have h := (foldMappings_delta tz fill stt uh.booleanHabits mappings
    ⟨keysOf uh.repetitions, [], 0, 0⟩).1
  simpa using h

/-- C9 counterexample: with two mappings whose records lie on day one and
day zero respectively, the run inserts the later midnight first, so the
inserted rows are not sorted by timestamp. -/
theorem convertSttToUHabits_not_sorted_counterexample :
    ((convertSttToUHabits 0
        ⟨[(1, ⟨1, "A", "", 0, 0⟩), (2, ⟨2, "B", "", 0, 0⟩)],
         [⟨1, 1, 86400000, 86460000, none⟩, ⟨2, 2, 0, 60000, none⟩]⟩
        ⟨[(1, ⟨"H1", 0⟩), (2, ⟨"H2", 0⟩)], []⟩
        [⟨1, 1, none, false⟩, ⟨2, 2, none, false⟩] false).newRows.map
        (fun r => r.timestamp) = [86400000, 0])
    ∧ ¬ List.Sorted (· ≤ ·) [(86400000 : Int), 0] := by
  exact ⟨by decide, by decide⟩

/-- C8 (code evaluation at the failing input): with the copy-comments flag
set and two records carrying distinct nonempty comments on one day, the
produced repetition row is checked (value 2) at the day-start timestamp,
but its notes field is the fixed session summary, not a concatenation of
the record comments, and the output is identical when the flag is cleared:
the converter never reads the flag. -/
theorem convertSttToUHabits_comments_ignored :
    ((convertSttToUHabits 0 commentsStt commentsUh [commentsMapping true] true).newRows.map
        (fun r => r.notes) = [some "Converted from STT: 2 sessions, 4min total"])
    ∧ ((convertSttToUHabits 0 commentsStt commentsUh [commentsMapping true] true).newRows.map
        (fun r => (r.habit_id, r.timestamp, r.value)) = [(1, 0, 2)])
    ∧ (convertSttToUHabits 0 commentsStt commentsUh [commentsMapping true] true
        = convertSttToUHabits 0 commentsStt commentsUh [commentsMapping false] true) := by
  have harith : jsRound (((240000 : Int) : ℚ) / 60000) = 4 := by
    have h1 : (((240000 : Int) : ℚ) / 60000) = 4 := by norm_num
    rw [jsRound, h1, ratFloor_eq]
    have h2 : ((4 : ℚ) + 1 / 2) = 9 / 2 := by norm_num
    rw [h2, Int.floor_eq_iff]
    constructor
    · norm_num
    · norm_num
  have hrow : (convertSttToUHabits 0 commentsStt commentsUh
      [commentsMapping true] true).newRows.map (fun r => r.notes)
      = [repetitionNotes true
          [⟨1, 1, 0, 120000, some "practiced scales"⟩,
           ⟨2, 1, 3600000, 3720000, some "learned a song"⟩]] := rfl
  have hms : List.foldl
      (fun s r => s + (r.end_timestamp - r.start_timestamp)) (0 : Int)
      [(⟨1, 1, 0, 120000, some "practiced scales"⟩ : SttRecord),
       ⟨2, 1, 3600000, 3720000, some "learned a song"⟩] = 240000 := by decide
  have hnotes : repetitionNotes true
      [(⟨1, 1, 0, 120000, some "practiced scales"⟩ : SttRecord),
       ⟨2, 1, 3600000, 3720000, some "learned a song"⟩]
      = some "Converted from STT: 2 sessions, 4min total" := by
    rw [repetitionNotes]
    dsimp only
    rw [hms, harith]
    decide
  refine ⟨?_, by decide, rfl⟩
  rw [hrow, hnotes]


/-! ### Claim theorems: the flat-to-structured converter -/

/-- C4 counterexample: a run whose subscriptions, playlists and
remote-playlists phases succeed but whose watch-history phase throws still
reaches COMMIT and succeeds: the watch-history failure does not propagate
out of the converter. -/
theorem convertToNewPipePhases_hist_swallowed_counterexample :
    convertToNewPipePhases (α := Nat) (fun n => .ok n) (fun n => .ok n) (fun n => .ok n)
      (fun _ => .error "history failed") (fun n => .ok n) 0 = .ok 0 := rfl

/-- C4 (amended): failures escaping the subscriptions, local-playlists or
remote-playlist-bookmarks phases propagate and abort the run; a failure
escaping the watch-history phase is caught and logged, and the run commits
with the state reached after the remote-playlists phase (modified only by
the best-effort room-master insert); individual malformed sub-records are
handled inside the phases. -/
theorem convertToNewPipePhases_amended {α : Type}
    (subsPhase playlistsPhase remotesPhase histPhase roomPhase : α → Except String α)
    (d0 : α) :
    (∀ e, subsPhase d0 = .error e →
      convertToNewPipePhases subsPhase playlistsPhase remotesPhase histPhase roomPhase d0
        = .error e)
    ∧ (∀ d1 e, subsPhase d0 = .ok d1 → playlistsPhase d1 = .error e →
      convertToNewPipePhases subsPhase playlistsPhase remotesPhase histPhase roomPhase d0
        = .error e)
    ∧ (∀ d1 d2 e, subsPhase d0 = .ok d1 → playlistsPhase d1 = .ok d2 →
      remotesPhase d2 = .error e →
      convertToNewPipePhases subsPhase playlistsPhase remotesPhase histPhase roomPhase d0
        = .error e)
    ∧ (∀ d1 d2 d3 e, subsPhase d0 = .ok d1 → playlistsPhase d1 = .ok d2 →
      remotesPhase d2 = .ok d3 → histPhase d3 = .error e →
      convertToNewPipePhases subsPhase playlistsPhase remotesPhase histPhase roomPhase d0
        = .ok (match roomPhase d3 with | .ok d => d | .error _ => d3)) := by
  refine ⟨?_, ?_, ?_, ?_⟩
  · intro e h
    simp [convertToNewPipePhases, h]
  · intro d1 e h1 h2
    simp [convertToNewPipePhases, h1, h2]
  · intro d1 d2 e h1 h2 h3
    simp [convertToNewPipePhases, h1, h2, h3]
  · intro d1 d2 d3 e h1 h2 h3 h4
    simp [convertToNewPipePhases, h1, h2, h3, h4]

theorem convertToNewPipePhases_amended_witness :
    convertToNewPipePhases (α := Nat) (fun n => .ok n) (fun n => .ok n) (fun n => .ok n)
      (fun _ => .error "boom") (fun n => .ok (n + 1)) 5 = .ok 6 := by
  have h := (convertToNewPipePhases_amended (α := Nat) (fun n => .ok n) (fun n => .ok n)
    (fun n => .ok n) (fun _ => .error "boom") (fun n => .ok (n + 1)) 5).2.2.2
    5 5 5 "boom" rfl rfl rfl rfl
  simpa using h

theorem lookupStreamUid_any {db : NPDb} {url : String} {sid : Int}
    (h : lookupStreamUid db url = some sid) :
    db.streams.any (fun s => s.service_id == 0 && s.url == url) = true := by
  rw [lookupStreamUid] at h
  rcases hf : db.streams.find? (fun s => s.service_id == 0 && s.url == url) with _ | s
  · rw [hf] at h
    cases h
  · have hp : (fun s => s.service_id == 0 && s.url == url) s = true :=
      List.find?_some (p := fun t : StreamRow => t.service_id == 0 && t.url == url) hf
    rw [List.any_eq_true]
    exact ⟨s, List.mem_of_find?_eq_some hf, hp⟩

/-- C2 counterexample: outside merge mode the one-second-window dedup does
not run: two incoming history entries for the same stream 800 milliseconds
apart produce two stream_history rows, not one row with a summed repeat
count. -/
theorem processHistory_no_dedup_outside_merge :
    (processHistory "new" 0 [] emptyNPDb
      [histEntryAt 2000000000000, histEntryAt 2000000000800]).stream_history.map
      (fun r => (r.stream_id, r.access_date))
      = [(1, 2000000000000), (1, 2000000000800)] := by decide

/-- C2 (amended): in merge mode, an incoming history entry whose resolved
stream already has a stream_history row with access date within the
inclusive 1000-millisecond window has its repeat count summed into the
first such row and inserts no new row; concretely, two merge-mode entries
800 milliseconds apart end up as one row with repeat count 2, while two
entries 1500 milliseconds apart end up as two distinct rows. -/
theorem convertToNewPipe_history_dedup_merge :
    (∀ (now : Int) (posMap : List (String × JSNum)) (db : NPDb) (e : LTHistEntry)
       (sid : Int) (ex : StreamHistoryRow),
      resolveVidIdNP e ≠ "" →
      lookupStreamUid db (canonicalWatchUrl (resolveVidIdNP e)) = some sid →
      db.stream_history.find? (historyWindowPred sid (resolveAccessDateMs now e))
        = some ex →
      (processHistoryItem "merge" now posMap db e).stream_history
        = db.stream_history.map (fun r =>
            if r.stream_id == sid && r.access_date == ex.access_date then
              { r with repeat_count := ex.repeat_count + resolveRepeatCount e }
            else r)
      ∧ (processHistoryItem "merge" now posMap db e).stream_history.length
        = db.stream_history.length)
    ∧ ((processHistory "merge" 0 [] emptyNPDb
        [histEntryAt 2000000000000, histEntryAt 2000000000800]).stream_history.map
        (fun r => (r.stream_id, r.access_date, r.repeat_count))
        = [(1, 2000000000000, (2 : ℚ))])
    ∧ ((processHistory "merge" 0 [] emptyNPDb
        [histEntryAt 2000000000000, histEntryAt 2000000001500]).stream_history.map
        (fun r => (r.stream_id, r.access_date))
        = [(1, 2000000000000), (1, 2000000001500)]) := by
  refine ⟨?_, ?_, ?_⟩
  · intro now posMap db e sid ex hvid hstream hfind
    have hany := lookupStreamUid_any hstream
    have hdb1 : insertOrIgnoreStream db (canonicalWatchUrl (resolveVidIdNP e))
        (jsOrSOpt e.title "Unknown") "VIDEO_STREAM" (e.duration.getD 0)
        (jsOrSOpt e.uploader "Unknown") e.uploadDate e.thumbnailUrl = db := by
      rw [insertOrIgnoreStream, if_pos hany]
    simp only [processHistoryItem, if_neg hvid, hdb1, hstream]
    have hhist : (insertOrReplaceStateRow db
        (resolveProgressTime posMap (resolveVidIdNP e) e) sid).stream_history
        = db.stream_history := rfl
    rw [writeHistoryRow, if_pos rfl, hhist, hfind]
    constructor
    · dsimp only
    · dsimp only
      rw [List.length_map]
  · have h : (processHistory "merge" 0 [] emptyNPDb
        [histEntryAt 2000000000000, histEntryAt 2000000000800]).stream_history.map
        (fun r => (r.stream_id, r.access_date, r.repeat_count))
        = [(1, 2000000000000, (1 : ℚ) + 1)] := rfl
    rw [h, show (1 : ℚ) + 1 = 2 by norm_num]
  · decide

theorem convertToNewPipe_history_dedup_merge_witness :
    (processHistoryItem "merge" 0 [] mergeNPDb (histEntryAt 2000000000800)).stream_history.length
      = mergeNPDb.stream_history.length := by
  have h := convertToNewPipe_history_dedup_merge.1 0 [] mergeNPDb
    (histEntryAt 2000000000800) 1 ⟨1, 2000000000000, 1⟩ (by decide) (by decide) (by decide)
  exact h.2


/-! ### Frame lemmas for the structured-to-flat converter -/

theorem foldlM_except_frame {α β γ : Type} (f : β → γ) (step : β → α → Except Unit β)
    (hstep : ∀ b a b2, step b a = .ok b2 → f b2 = f b) :
    ∀ (l : List α) (b b2 : β), l.foldlM step b = .ok b2 → f b2 = f b := by
  intro l
  induction l with
  | nil =>
    intro b b2 h
    cases h
    rfl
  | cons a as ih =>
    intro b b2 h
    rw [List.foldlM_cons] at h
    cases hs : step b a with
    | error e =>
      rw [hs] at h
      cases h
    | ok b1 =>
      rw [hs] at h
      have h2 : as.foldlM step b1 = .ok b2 := h
      rw [ih b1 b2 h2, hstep b a b1 hs]

theorem addOnePlaylist_shape (npq : NPQueryResults) (pb : Option String)
    (d : LTDoc) (row : NPPlaylistRow) (d2 : LTDoc)
    (h : addOnePlaylist npq pb d row = .ok d2) :
    ∃ pls, d2 = { d with localPlaylists := pls } := by
  simp only [addOnePlaylist] at h
  cases hv : buildPlaylistVideos row.uid (npq.videosOf row.uid) with
  | error e =>
    rw [hv] at h
    cases h
  | ok videos =>
    rw [hv] at h
    dsimp only at h
    split at h
    · split at h
      · split at h
        · cases h
          exact ⟨_, rfl⟩
        · cases h
          exact ⟨d.localPlaylists, rfl⟩
      · cases h
        exact ⟨_, rfl⟩
    · cases h
      exact ⟨d.localPlaylists, rfl⟩

theorem addLocalPlaylists_frame (npq : NPQueryResults) (pb : Option String)
    (doc d2 : LTDoc) (h : addLocalPlaylists npq pb doc = .ok d2) :
    d2.watchHistory = doc.watchHistory ∧ d2.subscriptions = doc.subscriptions
    ∧ d2.playlistBookmarks = doc.playlistBookmarks
    ∧ d2.watchPositions = doc.watchPositions
    ∧ d2.extraPlaylistKeys = doc.extraPlaylistKeys := by
  have hf := foldlM_except_frame
    (fun d : LTDoc => (d.watchHistory, d.subscriptions, d.playlistBookmarks,
      d.watchPositions, d.extraPlaylistKeys))
    (addOnePlaylist npq pb)
    (fun b a b2 hs => by
      obtain ⟨pls, rfl⟩ := addOnePlaylist_shape npq pb b a b2 hs
      rfl)
    npq.playlists doc d2 h
  simp only [Prod.mk.injEq] at hf
  exact ⟨hf.1, hf.2.1, hf.2.2.1, hf.2.2.2.1, hf.2.2.2.2⟩

theorem histMerge_shape (rows : List NPHistRow) (d d2 : LTDoc)
    (h : histMerge rows d = .ok d2) :
    ∃ wh, d2 = { d with watchHistory := wh } := by
  rw [histMerge] at h
  split at h
  · cases h
    exact ⟨d.watchHistory, rfl⟩
  · split at h
    · cases h
    · cases h
      exact ⟨_, rfl⟩

theorem historyImport_frame (npq : NPQueryResults) (inc : Bool) (d : LTDoc) :
    (historyImport npq inc d).playlistBookmarks = d.playlistBookmarks
    ∧ (historyImport npq inc d).localPlaylists = d.localPlaylists
    ∧ (historyImport npq inc d).extraPlaylistKeys = d.extraPlaylistKeys
    ∧ (historyImport npq inc d).subscriptions = d.subscriptions := by
  cases inc with
  | false => exact ⟨rfl, rfl, rfl, rfl⟩
  | true =>
    rw [historyImport, if_pos rfl]
    cases hm : histMerge npq.histRows (positionsStep npq d) with
    | error e =>
      exact ⟨rfl, rfl, rfl, rfl⟩
    | ok d2 =>
      obtain ⟨wh, hsh⟩ := histMerge_shape _ _ _ hm
      rw [hsh]
      exact ⟨rfl, rfl, rfl, rfl⟩

theorem historyImport_positions (npq : NPQueryResults) (d : LTDoc) :
    (historyImport npq true d).watchPositions
      = (stateFold npq.stateRows (buildPosMap d.watchPositions)).map
          (fun p => { videoId := p.1, position := some (.fin ((p.2 : Int) : ℚ)) }) := by
  rw [historyImport, if_pos rfl]
  cases hm : histMerge npq.histRows (positionsStep npq d) with
  | error e =>
    rfl
  | ok d2 =>
    obtain ⟨wh, hsh⟩ := histMerge_shape _ _ _ hm
    rw [hsh]
    rfl

/-! ### Association-list lemmas for the watch-position map -/

theorem map_setAssoc_id {β : Type} {c : List (String × β)} {k : String} {v : β}
    (h : ∀ q ∈ c, q.1 = k → q.2 = v) :
    c.map (fun p => if p.1 == k then (p.1, v) else p) = c := by
  induction c with
  | nil => rfl
  | cons p rest ih =>
    rw [List.map_cons, ih (fun q hq hqk => h q (List.mem_cons_of_mem _ hq) hqk)]
    by_cases hp : p.1 = k
    · have hv := h p (List.mem_cons_self p rest) hp
      have hb : (p.1 == k) = true := beq_iff_eq.mpr hp
      rw [hb, if_pos rfl, ← hv]
    · have hb : (p.1 == k) = false := beq_eq_false_iff_ne.mpr hp
      rw [hb, if_neg (by simp)]

theorem setAssoc_mem_nodup {c : List (String × String)} {k v : String}
    (hnod : (c.map Prod.fst).Nodup) (hmem : (k, v) ∈ c) :
    setAssoc c k v = c := by
  have hany : c.any (fun p => p.1 == k) = true := by
    rw [List.any_eq_true]
    exact ⟨(k, v), hmem, beq_self_eq_true k⟩
  rw [setAssoc, if_pos hany]
  refine map_setAssoc_id (fun q hq hqk => ?_)
  have hq2 : q = (k, v) :=
    List.inj_on_of_nodup_map hnod hq hmem (by rw [hqk])
  rw [hq2]

theorem restoreExtras_of_sub {c : List (String × String)}
    (hnod : (c.map Prod.fst).Nodup) :
    ∀ snap : List (String × String), (∀ kv ∈ snap, kv ∈ c) →
      restoreExtras c snap = c := by
  intro snap
  induction snap with
  | nil => intro h2; rfl
  | cons kv rest ih =>
    intro hsub
    have h1 : setAssoc c kv.1 kv.2 = c :=
      setAssoc_mem_nodup hnod (hsub kv (List.mem_cons_self kv rest))
    have h2 : restoreExtras c (kv :: rest)
        = restoreExtras (setAssoc c kv.1 kv.2) rest := rfl
    rw [h2, h1]
    exact ih (fun q hq => hsub q (List.mem_cons_of_mem _ hq))

theorem restoreExtras_self {c : List (String × String)}
    (hnod : (c.map Prod.fst).Nodup) : restoreExtras c c = c :=
  restoreExtras_of_sub hnod c (fun _ hq => hq)

theorem getAssoc_map_set {β : Type} {k : String} {v : β} :
    ∀ {mp : List (String × β)}, mp.any (fun p => p.1 == k) = true →
      getAssoc (mp.map (fun p => if p.1 == k then (p.1, v) else p)) k = some v := by
  intro mp
  induction mp with
  | nil => intro hany; cases hany
  | cons p rest ih =>
    intro hany
    rw [List.map_cons]
    by_cases hp : p.1 = k
    · have hb : (p.1 == k) = true := beq_iff_eq.mpr hp
      rw [hb, if_pos rfl]
      rw [getAssoc, if_pos hp]
    · have hb : (p.1 == k) = false := beq_eq_false_iff_ne.mpr hp
      rw [hb, if_neg (by simp)]
      rw [getAssoc, if_neg hp]
      apply ih
      rw [List.any_cons, hb] at hany
      simpa using hany

theorem getAssoc_append_new {β : Type} {k : String} {v : β} :
    ∀ {mp : List (String × β)}, mp.any (fun p => p.1 == k) = false →
      getAssoc (mp ++ [(k, v)]) k = some v := by
  intro mp
  induction mp with
  | nil =>
    intro hany
    rw [List.nil_append, getAssoc, if_pos rfl]
  | cons p rest ih =>
    intro hany
    rw [List.any_cons] at hany
    have h1 : (p.1 == k) = false := by
      cases hb : (p.1 == k) with
      | false => rfl
      | true => rw [hb] at hany; cases hany
    have h2 : rest.any (fun p => p.1 == k) = false := by
      cases hb : rest.any (fun p => p.1 == k) with
      | false => rfl
      | true => rw [hb] at hany; rw [Bool.or_true] at hany; cases hany
    rw [List.cons_append, getAssoc, if_neg (by simpa using h1)]
    exact ih h2

theorem getAssoc_setAssoc_self {β : Type} (mp : List (String × β)) (k : String) (v : β) :
    getAssoc (setAssoc mp k v) k = some v := by
  rw [setAssoc]
  by_cases hany : mp.any (fun p => p.1 == k) = true
  · rw [if_pos hany]
    exact getAssoc_map_set hany
  · rw [if_neg hany]
    refine getAssoc_append_new ?_
    cases hb : mp.any (fun p => p.1 == k) with
    | false => rfl
    | true => exact absurd hb hany

theorem getAssoc_map_set_ne {β : Type} {k kq : String} (hne : kq ≠ k) (v : β) :
    ∀ mp : List (String × β),
      getAssoc (mp.map (fun p => if p.1 == k then (p.1, v) else p)) kq
        = getAssoc mp kq := by
  intro mp
  induction mp with
  | nil => rfl
  | cons p rest ih =>
    rw [List.map_cons]
    by_cases hpk : p.1 = k
    · have hb : (p.1 == k) = true := beq_iff_eq.mpr hpk
      rw [hb, if_pos rfl]
      have hp : ¬ p.1 = kq := by
        intro hq
        exact hne (hq ▸ hpk)
      rw [getAssoc, if_neg hp, getAssoc, if_neg hp]
      exact ih
    · have hb : (p.1 == k) = false := beq_eq_false_iff_ne.mpr hpk
      rw [hb, if_neg (by simp)]
      by_cases hp : p.1 = kq
      · rw [getAssoc, if_pos hp, getAssoc, if_pos hp]
      · rw [getAssoc, if_neg hp, getAssoc, if_neg hp]
        exact ih

theorem getAssoc_setAssoc_ne {β : Type} (mp : List (String × β)) {k kq : String}
    (v : β) (hne : kq ≠ k) :
    getAssoc (setAssoc mp k v) kq = getAssoc mp kq := by
  rw [setAssoc]
  by_cases hany : mp.any (fun p => p.1 == k) = true
  · rw [if_pos hany]
    exact getAssoc_map_set_ne hne v mp
  · rw [if_neg hany]
    induction mp with
    | nil =>
      rw [List.nil_append]
      dsimp only [getAssoc]
      rw [if_neg (fun hq => hne (Eq.symm hq))]
    | cons p rest ih =>
      rw [List.cons_append, getAssoc, getAssoc]
      by_cases hp : p.1 = kq
      · rw [if_pos hp, if_pos hp]
      · rw [if_neg hp, if_neg hp]
        apply ih
        intro habs
        apply hany
        rw [List.any_cons, habs, Bool.or_true]

theorem stateFold_mono (rows : List NPStateRow) :
    ∀ (mp : List (String × Int)) (vid : String) (prev : Int),
      getAssoc mp vid = some prev →
      ∃ q, getAssoc (stateFold rows mp) vid = some q ∧ prev ≤ q := by
  induction rows with
  | nil =>
    intro mp vid prev h
    exact ⟨prev, h, le_refl prev⟩
  | cons r rest ih =>
    intro mp vid prev h
    have hstep : stateFold (r :: rest) mp
        = stateFold rest
            (if extractVideoIdFromUrl (jsStringOfOpt r.url) = "" then mp
             else
               if clampToSafeInt (.fin (match r.progress_time with
                   | some (.fin q) => q
                   | _ => 0))
                   > (getAssoc mp (extractVideoIdFromUrl (jsStringOfOpt r.url))).getD 0
               then setAssoc mp (extractVideoIdFromUrl (jsStringOfOpt r.url))
                 (clampToSafeInt (.fin (match r.progress_time with
                   | some (.fin q) => q
                   | _ => 0)))
               else mp) := rfl
    rw [hstep]
    by_cases hv : extractVideoIdFromUrl (jsStringOfOpt r.url) = ""
    · rw [if_pos hv]
      exact ih mp vid prev h
    · rw [if_neg hv]
      by_cases hgt : clampToSafeInt (.fin (match r.progress_time with
          | some (.fin q) => q
          | _ => 0))
          > (getAssoc mp (extractVideoIdFromUrl (jsStringOfOpt r.url))).getD 0
      · rw [if_pos hgt]
        by_cases hvv : vid = extractVideoIdFromUrl (jsStringOfOpt r.url)
        · subst hvv
          obtain ⟨q2, hq2, hle2⟩ := ih _ _ _ (getAssoc_setAssoc_self mp
            (extractVideoIdFromUrl (jsStringOfOpt r.url))
            (clampToSafeInt (.fin (match r.progress_time with
              | some (.fin q) => q
              | _ => 0))))
          refine ⟨q2, hq2, le_trans ?_ hle2⟩
          rw [h] at hgt
          exact le_of_lt hgt
        · have hne := getAssoc_setAssoc_ne mp
            (clampToSafeInt (.fin (match r.progress_time with
              | some (.fin q) => q
              | _ => 0))) hvv
          rw [← hne] at h
          exact ih _ vid prev h
      · rw [if_neg hgt]
        exact ih mp vid prev h


theorem convertToLibreTube_merge_none_eq (npq : NPQueryResults) (parsed : LTDoc)
    (inc : Option Bool) :
    convertToLibreTube npq (some parsed) "merge" none inc
      = match addLocalPlaylists npq none
          { parsed with
            subscriptions := parsed.subscriptions ++ subsExtract npq.subs,
            playlistBookmarks := parsed.playlistBookmarks ++ remExtract npq.remotePlaylists }
          with
        | .error e => .error e
        | .ok d3 => .ok (historyImport npq (inc.getD true)
            { d3 with watchPositions := sanitizeWatchPositions d3.watchPositions }) := rfl

theorem convertToLibreTube_only_lt_eq (npq : NPQueryResults) (parsed : LTDoc)
    (inc : Option Bool) :
    convertToLibreTube npq (some parsed) "merge" (some "only_libretube") inc
      = .ok (historyImport npq (inc.getD true)
          { parsed with
            subscriptions := parsed.subscriptions ++ subsExtract npq.subs,
            extraPlaylistKeys := restoreExtras parsed.extraPlaylistKeys
              parsed.extraPlaylistKeys,
            watchPositions := sanitizeWatchPositions parsed.watchPositions }) := rfl

/-- C7: in merge mode under the target-only conflict policy the playlist
fields of the pre-existing flat document survive unchanged: the output
playlist bookmarks and local playlists equal those of the input document,
and the other playlist-named keys, restored from the snapshot taken before
any mutation, equal their input values (object keys being unique). -/
theorem convertToLibreTube_only_libretube_preserves
    (npq : NPQueryResults) (parsed : LTDoc) (inc : Option Bool) (out : LTDoc)
    (hnod : (parsed.extraPlaylistKeys.map Prod.fst).Nodup)
    (hok : convertToLibreTube npq (some parsed) "merge" (some "only_libretube") inc
      = .ok out) :
    out.playlistBookmarks = parsed.playlistBookmarks
    ∧ out.localPlaylists = parsed.localPlaylists
    ∧ out.extraPlaylistKeys = parsed.extraPlaylistKeys := by
  rw [convertToLibreTube_only_lt_eq] at hok
  injection hok with hout
  obtain ⟨h1, h2, h3, h4⟩ := historyImport_frame npq (inc.getD true)
    { parsed with
      subscriptions := parsed.subscriptions ++ subsExtract npq.subs,
      extraPlaylistKeys := restoreExtras parsed.extraPlaylistKeys parsed.extraPlaylistKeys,
      watchPositions := sanitizeWatchPositions parsed.watchPositions }
  rw [← hout]
  refine ⟨h1, h2, ?_⟩
  rw [h3]
  exact restoreExtras_self hnod

theorem convertToLibreTube_only_libretube_preserves_witness :
    extrasOut.playlistBookmarks = extrasParsed.playlistBookmarks
    ∧ extrasOut.localPlaylists = extrasParsed.localPlaylists
    ∧ extrasOut.extraPlaylistKeys = extrasParsed.extraPlaylistKeys :=
  convertToLibreTube_only_libretube_preserves extrasNpq extrasParsed (some false) extrasOut
    (by decide) rfl

/-- C3: in structured-to-flat conversion in merge mode with the
watch-history flag set, the output watch positions are exactly the
position map of the pre-existing document merged with the stream-state
rows, a merge that never lowers any entry of the pre-existing map;
concretely, offsets 500 (structured store) against 300 (pre-existing)
yield 500, and 300 against 500 keep 500. -/
theorem convertToLibreTube_watchPositions_max :
    (∀ (npq : NPQueryResults) (parsed : LTDoc) (out : LTDoc),
      convertToLibreTube npq (some parsed) "merge" none (some true) = .ok out →
      out.watchPositions = (stateFold npq.stateRows
          (buildPosMap (sanitizeWatchPositions parsed.watchPositions))).map
          (fun p => { videoId := p.1, position := some (.fin ((p.2 : Int) : ℚ)) })
      ∧ ∀ vid prev,
          getAssoc (buildPosMap (sanitizeWatchPositions parsed.watchPositions)) vid
            = some prev →
          ∃ q, getAssoc (stateFold npq.stateRows
              (buildPosMap (sanitizeWatchPositions parsed.watchPositions))) vid = some q
            ∧ prev ≤ q)
    ∧ ((convertToLibreTube posNpq (some posParsed) "merge" none (some true)).map
        (fun d => d.watchPositions) = .ok [⟨"abcdefghijk", some (.fin 500)⟩])
    ∧ ((convertToLibreTube posNpq2 (some posParsed2) "merge" none (some true)).map
        (fun d => d.watchPositions) = .ok [⟨"abcdefghijk", some (.fin 500)⟩]) := by
  refine ⟨?_, by decide, by decide⟩
  intro npq parsed out hok
  rw [convertToLibreTube_merge_none_eq] at hok
  cases hadd : addLocalPlaylists npq none
      { parsed with
        subscriptions := parsed.subscriptions ++ subsExtract npq.subs,
        playlistBookmarks := parsed.playlistBookmarks ++ remExtract npq.remotePlaylists }
      with
  | error e =>
    rw [hadd] at hok
    cases hok
  | ok d3 =>
    rw [hadd] at hok
    injection hok with hout
    obtain ⟨_, _, _, hwp, _⟩ := addLocalPlaylists_frame npq none _ d3 hadd
    constructor
    · rw [← hout, Option.getD_some]
      have hpos := historyImport_positions npq
        { d3 with watchPositions := sanitizeWatchPositions d3.watchPositions }
      dsimp only at hpos
      rw [hpos]
      dsimp only at hwp
      rw [hwp]
    · intro vid prev hprev
      exact stateFold_mono npq.stateRows _ vid prev hprev

theorem convertToLibreTube_watchPositions_max_witness :
    posOut.watchPositions
      = (stateFold posNpq.stateRows
          (buildPosMap (sanitizeWatchPositions posParsed.watchPositions))).map
          (fun p => { videoId := p.1, position := some (.fin ((p.2 : Int) : ℚ)) })
    ∧ posOut.watchPositions = [⟨"abcdefghijk", some (.fin 500)⟩] := by
  have h := convertToLibreTube_watchPositions_max.1 posNpq posParsed posOut rfl
  refine ⟨h.1, ?_⟩
  rw [h.1]
  decide

theorem formatUploadDate_amended_witness :
    formatUploadDateNum 2000000000000 = .ok "2033-05-18" := by
  have h := formatUploadDate_amended.2.2.2.1 2000000000000 (by norm_num)
    (by rw [MAX_TIME_VALUE]; norm_num)
  rw [h]
  decide

end Npconv

